import Mathlib

/-!
# gcdump: the streaming loop of `src/gcdump/gcdump.c`

A shallow embedding of the main loop of `main` (lines 293-459): the token
scanner for `CONFIRM_MSG` and `START_MSG`, the in-flight counter
`unconfirmed`, the command framer that fills `gcodebuf`, and the poll-driven
loop that ties them together.

Conventions.

* Bytes are natural numbers (a `char` is a value below 256; every theorem
  quantified over `Nat` covers all of them).
* `unsigned` arithmetic is taken modulo `2^32`.
* One iteration of `while(1)` is the function `step`.  What the operating
  system and the device do in that iteration (the result of `poll`, of
  `serial_read` and of `read`) is supplied in an `Event`.
* An access outside `gcodebuf`, or outside a token's string literal, is
  undefined behaviour in C; the model stops with `Result.fault`.
* `State.trace` is a log of what the loop did, in order: the calls of
  `serial_write` and of `read` on the command source, and the places of the
  `debug(...)` markers of the source.  It is not read by the code.
* Output to `stdout` (`verbose`, `interactive`) is not modelled.
-/

namespace Gcdump

/-! ## Constants of the source and of `<poll.h>`, `<stdlib.h>` -/

/-- Event bit `POLLIN` of `<poll.h>` (Linux value). -/
def POLLIN : Nat := 1

/-- Event bit `POLLHUP` of `<poll.h>` (Linux value). -/
def POLLHUP : Nat := 16

/-- Exit status `EXIT_SUCCESS` of `<stdlib.h>`. -/
def EXIT_SUCCESS : Nat := 0

/-- Exit status `EXIT_FAILURE` of `<stdlib.h>`. -/
def EXIT_FAILURE : Nat := 1

/-- Line 33: `#define SERIAL_BUFSIZE 128`. -/
def SERIAL_BUFSIZE : Nat := 128

/-- Line 34: `#define GCODE_BUFSIZE 512`. -/
def GCODE_BUFSIZE : Nat := 512

/-- Line 36: the string literal `"ok\r\n"`, as the array of its five chars,
the terminating NUL included. -/
def CONFIRM_MSG : List Nat := [111, 107, 13, 10, 0]

/-- Line 37: the string literal `"start\r\n"`, as the array of its eight
chars, the terminating NUL included. -/
def START_MSG : List Nat := [115, 116, 97, 114, 116, 13, 10, 0]

/-- The two bytes `"\r\n"` written after every command line (lines 384, 425). -/
def CRLF : List Nat := [13, 10]

/-- C `strlen`: the number of chars before the first NUL. -/
def strlen (s : List Nat) : Nat := (s.takeWhile (fun c => c != 0)).length

/-- Modulus of the type `unsigned`. -/
def UINT_MOD : Nat := 4294967296

/-! ## Data model -/

/-- Result of `read(fds[FD_INPUT].fd, &ch, 1)` (line 399): one byte
(`ret == 1`), end of input (`ret == 0`) or an error (`ret < 0`). -/
inductive ReadResult where
  | byte (ch : Nat)
  | eof
  | error
  deriving DecidableEq, Repr

/-- Entries of the log `State.trace`. -/
inductive Action where
  /-- Line 399: `read` was called on the command source and returned `r`. -/
  | inputRead (r : ReadResult)
  /-- Lines 383, 384, 424, 425: `serial_write(serial, data, n)`. -/
  | serialWrite (data : List Nat)
  /-- Line 362, `debug("Message receipt confirmed!")`; `counted` tells
  whether `unconfirmed > 0` held, that is whether the counter was decremented. -/
  | confirmed (counted : Bool)
  /-- Line 380, `debug("Machine was reset.")`. -/
  | machineReset
  /-- Line 428, `debug("Sent complete block.")`. -/
  | sentBlock
  deriving DecidableEq, Repr

/-- The options of the command line the loop reads: `-u` and `-c`. -/
structure Config where
  max_unconfirmed : Nat
  compress : Bool
  deriving DecidableEq, Repr

/-- The local variables of `main` that the loop uses (lines 286-302). -/
structure State where
  /-- `size_t confpoint`: chars of `CONFIRM_MSG` found. -/
  confpoint : Nat
  /-- `size_t startpoint`: chars of `START_MSG` found. -/
  startpoint : Nat
  /-- `size_t gcpoint`: fill level of `gcodebuf`. -/
  gcpoint : Nat
  /-- `int gccomment`. -/
  gccomment : Bool
  /-- `unsigned unconfirmed`. -/
  unconfirmed : Nat
  /-- `int inputdone`. -/
  inputdone : Bool
  /-- `char gcodebuf[GCODE_BUFSIZE]`. -/
  gcodebuf : List Nat
  /-- `fds[FD_INPUT].events`. -/
  inputEvents : Nat
  /-- `fds[FD_INPUT].revents`. -/
  inputRevents : Nat
  /-- `fds[FD_SERIAL].revents`. -/
  serialRevents : Nat
  /-- Log of the actions performed so far, oldest first. -/
  trace : List Action
  deriving DecidableEq, Repr

/-- What the environment contributes to one iteration of the loop. -/
structure Event where
  /-- Return value of `poll`. -/
  pollRet : Int
  /-- The `revents` that `poll` stores for the command source (only when the
  command source is polled, line 313). -/
  inputRevents : Nat
  /-- The `revents` that `poll` stores for the serial port. -/
  serialRevents : Nat
  /-- The bytes `serial_read` stores in `serialbuf`; `len` is their number. -/
  reply : List Nat
  /-- The result of `read` on the command source, if it is called. -/
  input : ReadResult
  /-- Whether the calls of `serial_write` made in this iteration report
  failure.  The loop discards the value `serial_write` returns (lines 383,
  384, 424, 425), so nothing below reads this field. -/
  writeFails : Bool := false
  deriving DecidableEq, Repr

/-- Outcome of a piece of the loop body. -/
inductive Result where
  /-- Control reaches the end of the piece; the loop goes on. -/
  | cont (s : State)
  /-- The program called `exit(code)`. -/
  | exit (code : Nat) (s : State)
  /-- An array was accessed out of bounds. -/
  | fault (s : State)
  deriving DecidableEq, Repr

/-- Sequencing: run `f` if the first piece ran to its end. -/
def Result.andThen (r : Result) (f : State → Result) : Result :=
  match r with
  | Result.cont s => f s
  | Result.exit c s => Result.exit c s
  | Result.fault s => Result.fault s

/-- The state a result carries. -/
def Result.state : Result → State
  | Result.cont s => s
  | Result.exit _ s => s
  | Result.fault s => s

/-- The variables as initialised in lines 288-302. -/
def init : State :=
  { confpoint := 0, startpoint := 0, gcpoint := 0, gccomment := false,
    unconfirmed := 0, inputdone := false,
    gcodebuf := List.replicate GCODE_BUFSIZE 0,
    inputEvents := POLLIN, inputRevents := 0, serialRevents := 0,
    trace := [] }

/-! ## The token scanner (lines 358-390) -/

/-- Lines 359-375: the confirmation token. -/
def scanConfirm (s : State) (b : Nat) : Result :=
  match CONFIRM_MSG[s.confpoint]? with
  | none => Result.fault s
  | some c =>
    if b = c then
      let s1 := { s with confpoint := s.confpoint + 1 }
      if s1.confpoint ≥ strlen CONFIRM_MSG then
        Result.cont { s1 with
          trace := s1.trace ++ [Action.confirmed (decide (s1.unconfirmed > 0))]
          unconfirmed := if s1.unconfirmed > 0 then s1.unconfirmed - 1 else s1.unconfirmed
          inputEvents := POLLIN
          gcpoint := 0
          confpoint := 0 }
      else Result.cont s1
    else Result.cont { s with confpoint := 0 }

/-- Lines 377-389: the reset token. -/
def scanStart (s : State) (b : Nat) : Result :=
  match START_MSG[s.startpoint]? with
  | none => Result.fault s
  | some c =>
    if b = c then
      let s1 := { s with startpoint := s.startpoint + 1 }
      if s1.startpoint ≥ strlen START_MSG ∧ s1.unconfirmed ≠ 0 then
        Result.cont { s1 with
          trace := s1.trace ++ [Action.machineReset,
            Action.serialWrite (s1.gcodebuf.take s1.gcpoint),
            Action.serialWrite CRLF] }
      else Result.cont s1
    else Result.cont { s with startpoint := 0 }

/-- The body of the `for` loop of line 358 for one byte of `serialbuf`. -/
def scanByte (s : State) (b : Nat) : Result :=
  (scanConfirm s b).andThen (fun s1 => scanStart s1 b)

/-- The `for` loop of lines 358-390 over the bytes `serial_read` returned. -/
def scanLoop (s : State) : List Nat → Result
  | [] => Result.cont s
  | b :: bs => (scanByte s b).andThen (fun s1 => scanLoop s1 bs)

/-! ## The command framer (lines 415-457) -/

/-- Line 454: `gcodebuf[gcpoint++] = ch`. -/
def store (s : State) (ch : Nat) : Result :=
  if s.gcpoint < GCODE_BUFSIZE then
    Result.cont { s with gcodebuf := s.gcodebuf.set s.gcpoint ch, gcpoint := s.gcpoint + 1 }
  else Result.fault s

/-- The `switch(ch)` of lines 415-457. -/
def frame (cfg : Config) (s : State) (ch : Nat) : Result :=
  if ch = 13 ∨ ch = 10 then
    let s1 := { s with gccomment := false }
    if s1.gcpoint = 0 then Result.cont s1
    else
      let s2 := { s1 with
        trace := s1.trace ++ [Action.serialWrite (s1.gcodebuf.take s1.gcpoint),
          Action.serialWrite CRLF, Action.sentBlock]
        unconfirmed := (s1.unconfirmed + 1) % UINT_MOD }
      if s2.unconfirmed > cfg.max_unconfirmed then
        Result.cont { s2 with inputEvents := 0 }
      else Result.cont s2
  else
    let s1 := if ch = 59 ∧ cfg.compress = true then { s with gccomment := true } else s
    if (ch = 59 ∨ ch = 32 ∨ ch = 9) ∧ cfg.compress = true then Result.cont s1
    else if s1.gccomment = false then store s1 ch
    else Result.cont s1

/-! ## One iteration of `while(1)` (lines 303-459) -/

/-- Lines 395-458: the command source. -/
def inputPart (cfg : Config) (s : State) (ev : Event) : Result :=
  if s.inputRevents &&& POLLIN ≠ 0 ∨ s.inputRevents &&& POLLHUP ≠ 0 then
    let s1 := { s with trace := s.trace ++ [Action.inputRead ev.input] }
    match ev.input with
    | ReadResult.eof => Result.cont { s1 with inputEvents := 0, inputdone := true }
    | ReadResult.error => Result.exit EXIT_FAILURE s1
    | ReadResult.byte ch => frame cfg s1 ch
  else Result.cont s

/-- Lines 346-391: the serial port. -/
def serialPart (s : State) (ev : Event) : Result :=
  if s.serialRevents &&& POLLIN ≠ 0 then scanLoop s ev.reply else Result.cont s

/-- Lines 306-314: what `poll` stores.  With `inputdone` set only the entry
of the serial port is passed to `poll`. -/
def pollPart (s : State) (ev : Event) : State :=
  if s.inputdone = true then { s with serialRevents := ev.serialRevents }
  else { s with inputRevents := ev.inputRevents, serialRevents := ev.serialRevents }

/-- One iteration of the main loop. -/
def step (cfg : Config) (s : State) (ev : Event) : Result :=
  if s.inputdone = true ∧ s.unconfirmed = 0 then Result.exit EXIT_SUCCESS s
  else if ev.pollRet < 0 then Result.exit EXIT_FAILURE s
  else (serialPart (pollPart s ev) ev).andThen (fun s1 => inputPart cfg s1 ev)

/-- The loop over a list of events; it stops at the first `exit` or fault. -/
def run (cfg : Config) (s : State) : List Event → Result
  | [] => Result.cont s
  | ev :: evs => (step cfg s ev).andThen (fun s1 => run cfg s1 evs)

/-! ## Reading the log -/

/-- The payloads of the `serial_write` calls, in order. -/
def writesOf (tr : List Action) : List (List Nat) :=
  tr.filterMap (fun a => match a with
    | Action.serialWrite d => some d
    | _ => none)

/-- All bytes written to the device, in order. -/
def written (tr : List Action) : List Nat := (writesOf tr).flatten

/-- Number of command lines the framer transmitted. -/
def sentCount (tr : List Action) : Nat := tr.count Action.sentBlock

/-- Number of completions of the confirmation token. -/
def confirmCount (tr : List Action) : Nat :=
  tr.countP (fun a => match a with
    | Action.confirmed _ => true
    | _ => false)

/-- Number of completions of the confirmation token that found
`unconfirmed > 0`. -/
def countedConfirms (tr : List Action) : Nat := tr.count (Action.confirmed true)

/-- Number of calls of `read` on the command source. -/
def readCount (tr : List Action) : Nat :=
  tr.countP (fun a => match a with
    | Action.inputRead _ => true
    | _ => false)

/-- The log restricted to the writes to the device and the completions of the
confirmation token. -/
def handshake (tr : List Action) : List Action :=
  tr.filter (fun a => match a with
    | Action.serialWrite _ => true
    | Action.confirmed _ => true
    | _ => false)

/-! ## Events used in examples -/

/-- An iteration in which only the command source is ready and `read`
returns `r`. -/
def inputEv (r : ReadResult) : Event :=
  { pollRet := 1, inputRevents := POLLIN, serialRevents := 0, reply := [], input := r }

/-- An iteration in which only the serial port is ready and `serial_read`
returns `bs`. -/
def serialEv (bs : List Nat) : Event :=
  { pollRet := 1, inputRevents := 0, serialRevents := POLLIN, reply := bs,
    input := ReadResult.eof }

/-- The bytes of a string (ASCII). -/
def bytes (str : String) : List Nat := str.toList.map Char.toNat

/-! ## Observations on the scanner -/

/-- A token without its terminating NUL: the bytes the device sends. -/
def token (msg : List Nat) : List Nat := msg.take (strlen msg)

/-- The confirmation token completes on byte `b` in state `s`: the branch of
line 361 (`confpoint >= strlen(CONFIRM_MSG)`) is taken. -/
def completesConfirm (s : State) (b : Nat) : Prop :=
  confirmCount (scanByte s b).state.trace = confirmCount s.trace + 1

instance (s : State) (b : Nat) : Decidable (completesConfirm s b) := by
  unfold completesConfirm; infer_instance

/-- The reset token completes on byte `b` in state `s`: after the byte,
`startpoint >= strlen(START_MSG)` holds (the first operand of line 379). -/
def completesStart (s : State) (b : Nat) : Prop :=
  match scanByte s b with
  | Result.cont s1 => s1.startpoint ≥ strlen START_MSG
  | _ => False

instance (s : State) (b : Nat) : Decidable (completesStart s b) := by
  unfold completesStart; split <;> infer_instance

/-! ## The loop closed with a command file and a device

The command source is a file: `poll` reports `POLLIN` for it exactly when
`POLLIN` is requested, and `read` returns its next byte, or 0 at its end.
The device answers each line it receives; its bytes reach `serial_read` in
chunks whose sizes a schedule chooses. -/

/-- The environment of the loop. -/
structure World where
  /-- Bytes of the command source not yet read. -/
  input : List Nat
  /-- Bytes the device has sent that `serial_read` has not yet returned. -/
  pending : List Nat
  /-- Number of command lines the device has received. -/
  received : Nat
  deriving DecidableEq, Repr

/-- A device, given by its reply to the `k`-th line it receives. -/
abbrev Device := Nat → List Nat

/-- The device of scenario A: `"ok\r\n"` after each line. -/
def okDevice : Device := fun _ => token CONFIRM_MSG

/-- The loop together with its environment. -/
inductive Sys where
  /-- At the head of the loop. -/
  | running (s : State) (w : World)
  /-- The program has ended with result `r`. -/
  | stopped (r : Result)
  /-- The call of `poll` never returns: nothing is ready and nothing will be. -/
  | blocked (s : State) (w : World)
  deriving DecidableEq, Repr

/-- The command source is polled and `POLLIN` is requested for it. -/
def inputReady (s : State) : Prop :=
  s.inputdone = false ∧ s.inputEvents &&& POLLIN ≠ 0

instance (s : State) : Decidable (inputReady s) := by
  unfold inputReady; infer_instance

/-- Number of bytes the next `serial_read` returns when the schedule asks for
`req`: at most what is pending and what `serialbuf` takes, and at least one
byte when `poll` cannot return for the command source. -/
def chunkSize (s : State) (w : World) (req : Nat) : Nat :=
  let avail := min w.pending.length (SERIAL_BUFSIZE - 1)
  if inputReady s then min req avail else min (max req 1) avail

/-- The event the environment produces at the head of the loop. -/
def closedEvent (s : State) (w : World) (req : Nat) : Event :=
  { pollRet := 1
    inputRevents := s.inputEvents &&& POLLIN
    serialRevents := if chunkSize s w req = 0 then 0 else POLLIN
    reply := w.pending.take (chunkSize s w req)
    input := match w.input with
      | [] => ReadResult.eof
      | b :: _ => ReadResult.byte b }

/-- The environment after an iteration that appended `acts` to the log and
consumed `k` reply bytes. -/
def advance (dev : Device) (w : World) (k : Nat) (acts : List Action) : World :=
  let nlines := (writesOf acts).count CRLF
  { input := if readCount acts = 0 then w.input else w.input.drop 1
    pending := w.pending.drop k ++
      ((List.range nlines).map (fun i => dev (w.received + i))).flatten
    received := w.received + nlines }

/-- One iteration of the closed loop. -/
def closedStep (cfg : Config) (dev : Device) (req : Nat) : Sys → Sys
  | Sys.running s w =>
    if s.inputdone = true ∧ s.unconfirmed = 0 then
      Sys.stopped (step cfg s (closedEvent s w req))
    else if ¬ inputReady s ∧ w.pending = [] then Sys.blocked s w
    else
      match step cfg s (closedEvent s w req) with
      | Result.cont s1 =>
        Sys.running s1 (advance dev w (chunkSize s w req) (s1.trace.drop s.trace.length))
      | r => Sys.stopped r
  | sys => sys

/-- The closed loop for `n` iterations; iteration `i` uses `sched i`. -/
def closedRun (cfg : Config) (dev : Device) (sched : Nat → Nat) : Nat → Sys → Sys
  | 0, sys => sys
  | n + 1, sys => closedRun cfg dev (fun i => sched (i + 1)) n (closedStep cfg dev (sched 0) sys)

/-- The bytes of a command file, given as its lines with their terminators. -/
def inputOf (lines : List (List Nat × Nat)) : List Nat :=
  (lines.map (fun p => p.1 ++ [p.2])).flatten

/-- The `serial_write` calls expected for a command file: for each non-empty
line the line, then `"\r\n"`. -/
def expectedWrites (lines : List (List Nat × Nat)) : List (List Nat) :=
  ((lines.filter (fun p => decide (p.1 ≠ []))).map (fun p => [p.1, CRLF])).flatten

/-- What the device sees and confirms for a command file in lockstep: each
non-empty line is written, then `"\r\n"`, then its confirmation completes,
before anything of the next line is written. -/
def expectedHandshake (lines : List (List Nat × Nat)) : List Action :=
  ((lines.filter (fun p => decide (p.1 ≠ []))).map
    (fun p => [Action.serialWrite p.1, Action.serialWrite CRLF, Action.confirmed true])).flatten

/-- A line of a command file: terminated by CR or LF, free of both, and not
longer than the line buffer. -/
def wellFormedLine (p : List Nat × Nat) : Prop :=
  (p.2 = 13 ∨ p.2 = 10) ∧ p.1.length ≤ GCODE_BUFSIZE ∧ ∀ b ∈ p.1, b ≠ 13 ∧ b ≠ 10

instance (p : List Nat × Nat) : Decidable (wellFormedLine p) := by
  unfold wellFormedLine; infer_instance

/-- The log of the loop for one line of a command file in lockstep. -/
def lineTrace (p : List Nat × Nat) : List Action :=
  p.1.map (fun b => Action.inputRead (ReadResult.byte b)) ++
    [Action.inputRead (ReadResult.byte p.2)] ++
    (if p.1 = [] then []
     else [Action.serialWrite p.1, Action.serialWrite CRLF, Action.sentBlock,
       Action.confirmed true])

/-- The log of the loop for a command file in lockstep. -/
def fileTrace (lines : List (List Nat × Nat)) : List Action :=
  (lines.map lineTrace).flatten ++ [Action.inputRead ReadResult.eof]

/-- The loop is between two lines or inside a line, nothing in flight. -/
def accumulating (s : State) : Prop :=
  s.confpoint = 0 ∧ s.startpoint = 0 ∧ s.unconfirmed = 0 ∧ s.inputdone = false ∧
    s.inputEvents = POLLIN ∧ s.gccomment = false ∧ s.gcodebuf.length = GCODE_BUFSIZE

/-- The loop has one line in flight and has seen `j` bytes of its
confirmation. -/
def awaiting (j : Nat) (s : State) : Prop :=
  s.confpoint = j ∧ s.startpoint = 0 ∧ s.unconfirmed = 1 ∧ s.inputdone = false ∧
    s.inputEvents = 0 ∧ s.gccomment = false ∧ s.gcodebuf.length = GCODE_BUFSIZE

/-- The environment at the start: the whole file unread, nothing received. -/
def startWorld (input : List Nat) : World :=
  { input := input, pending := [], received := 0 }

/-! ## Configurations and event lists used in examples -/

/-- The default configuration: `max_unconfirmed = 0`, no `-c`. -/
def lockstep : Config := { max_unconfirmed := 0, compress := false }

/-- The configuration `-u n`, no `-c`. -/
def writeAhead (n : Nat) : Config := { max_unconfirmed := n, compress := false }

/-- One iteration per byte of `bs`, each reading that byte from the command
source. -/
def inputEvs (bs : List Nat) : List Event := bs.map (fun b => inputEv (ReadResult.byte b))

/-- An iteration in which `poll` reports only `POLLHUP` for the command source
(the writer of a pipe has closed it) and `read` returns `r`. -/
def hangupEv (r : ReadResult) : Event :=
  { pollRet := 1, inputRevents := POLLHUP, serialRevents := 0, reply := [], input := r }

/-! ## Reads of the command source and what `poll` reported -/

/-- The iteration of state `s` and event `ev` calls `read` on the command
source. -/
def readsInput (cfg : Config) (s : State) (ev : Event) : Prop :=
  readCount s.trace < readCount (step cfg s ev).state.trace

instance (cfg : Config) (s : State) (ev : Event) : Decidable (readsInput cfg s ev) := by
  unfold readsInput; infer_instance

/-- In this iteration `poll` covers the command source, `POLLIN` was requested
for it, and `poll` reports `POLLIN` and no hang-up. -/
def pollRequested (s : State) (ev : Event) : Prop :=
  s.inputdone = false ∧ s.inputEvents &&& POLLIN ≠ 0 ∧
    ev.inputRevents &&& POLLIN ≠ 0 ∧ ev.inputRevents &&& POLLHUP = 0

instance (s : State) (ev : Event) : Decidable (pollRequested s ev) := by
  unfold pollRequested; infer_instance

/-- Along the run from `s` over `evs`, the command source is read only in
iterations in which `poll` reported requested `POLLIN` readiness. -/
def readsOnRequest (cfg : Config) : State → List Event → Prop
  | _, [] => True
  | s, ev :: evs =>
    (readsInput cfg s ev → pollRequested s ev) ∧
    (match step cfg s ev with
      | Result.cont s1 => readsOnRequest cfg s1 evs
      | _ => True)

/-! ## Invariants -/

/-- The counter is at most the number of transmissions minus the number of
confirmations that found it positive. -/
def counterBound (s : State) : Prop :=
  s.unconfirmed + countedConfirms s.trace ≤ sentCount s.trace

/-- The flow-control invariant: `fds[FD_INPUT].events` is `POLLIN` or 0, the
counter is at most `max_unconfirmed + 1`, and before end of input `POLLIN` is
requested exactly when the counter is at most `max_unconfirmed`. -/
def flowInv (cfg : Config) (s : State) : Prop :=
  (s.inputEvents = POLLIN ∨ s.inputEvents = 0) ∧
  s.unconfirmed ≤ cfg.max_unconfirmed + 1 ∧
  (s.inputdone = false → (s.inputEvents = POLLIN ↔ s.unconfirmed ≤ cfg.max_unconfirmed))

/-- The flow-control invariant in an iteration that may read the command
source: the counter is within the limit and `POLLIN` is requested. -/
def flowOpen (cfg : Config) (s : State) : Prop :=
  s.inputEvents = POLLIN ∧ s.unconfirmed ≤ cfg.max_unconfirmed

/-- Whether reads happen only on request along a run can be computed. -/
def readsOnRequestDec (cfg : Config) :
    (s : State) → (evs : List Event) → Decidable (readsOnRequest cfg s evs)
  | _, [] => isTrue trivial
  | s, ev :: evs =>
    match h : step cfg s ev with
    | Result.cont s1 =>
      match readsOnRequestDec cfg s1 evs with
      | isTrue h2 =>
        if h1 : readsInput cfg s ev → pollRequested s ev then
          isTrue (by unfold readsOnRequest; rw [h]; exact ⟨h1, h2⟩)
        else isFalse (by unfold readsOnRequest; exact fun hh => h1 hh.1)
      | isFalse h2 => isFalse (by unfold readsOnRequest; rw [h]; exact fun hh => h2 hh.2)
    | Result.exit _ _ =>
      if h1 : readsInput cfg s ev → pollRequested s ev then
        isTrue (by unfold readsOnRequest; rw [h]; exact ⟨h1, trivial⟩)
      else isFalse (by unfold readsOnRequest; exact fun hh => h1 hh.1)
    | Result.fault _ =>
      if h1 : readsInput cfg s ev → pollRequested s ev then
        isTrue (by unfold readsOnRequest; rw [h]; exact ⟨h1, trivial⟩)
      else isFalse (by unfold readsOnRequest; exact fun hh => h1 hh.1)

instance (cfg : Config) (s : State) (evs : List Event) :
    Decidable (readsOnRequest cfg s evs) := readsOnRequestDec cfg s evs

/-- Once `inputdone` is set, the log holds a `read` that returned 0. -/
def eofSeen (s : State) : Prop :=
  s.inputdone = true → Action.inputRead ReadResult.eof ∈ s.trace

/-- Confirmations so far plus the counter are at least `n`. -/
def drainBound (n : Nat) (s : State) : Prop :=
  n ≤ confirmCount s.trace + s.unconfirmed

/-- Scenario C: with `-u 2`, the state after the input `"A\nB\n"` and a `read`
that returned 0: two lines are in flight. -/
def drainingTwo : State :=
  (run (writeAhead 2) init (inputEvs [65, 10, 66, 10] ++ [inputEv ReadResult.eof])).state

/-- Scenario C: two wake-ups of the serial port that each deliver `"ok\r\n"`,
and one more iteration. -/
def twoConfirms : List Event :=
  [serialEv (token CONFIRM_MSG), serialEv (token CONFIRM_MSG), serialEv []]

/-- Whatever the schedule, the closed loop in lockstep with the confirming
device reaches, after some number of iterations, a situation with property
`P`. -/
def eventually (a : Sys) (P : Sys → Prop) : Prop :=
  ∀ sched : Nat → Nat, ∃ n, P (closedRun lockstep okDevice sched n a)

/-- Scenario A and B: the command file `"G1 X10\nG1 X20\n"`. -/
def scenarioLines : List (List Nat × Nat) :=
  [([71, 49, 32, 88, 49, 48], 10), ([71, 49, 32, 88, 50, 48], 10)]

/-! ## More observations on the scanner -/

/-- While the confirmation cursor is inside its token, the reset cursor is
at 0. -/
def cursorsApart (s : State) : Prop :=
  s.confpoint ≠ 0 → s.startpoint = 0

/-- The bytes `tok` occur in `bs` ending just before position `n`. -/
def occursAt (tok bs : List Nat) (n : Nat) : Prop :=
  tok.length ≤ n ∧ n ≤ bs.length ∧ (bs.take n).drop (n - tok.length) = tok

instance (tok bs : List Nat) (n : Nat) : Decidable (occursAt tok bs n) := by
  unfold occursAt; infer_instance

/-- Number of occurrences of `tok` in `bs`. -/
def occurrences (tok bs : List Nat) : Nat :=
  ((List.range (bs.length + 1)).filter (fun n => decide (occursAt tok bs n))).length

/-- Confirmations that decremented the counter are not more than the
confirmations, counted from the log `tr0` on. -/
def decrementsBound (tr0 : List Action) (s : State) : Prop :=
  countedConfirms s.trace + confirmCount tr0 ≤ confirmCount s.trace + countedConfirms tr0

/-- The initial state with one command counted as in flight. -/
def oneInFlight : State := { init with unconfirmed := 1 }

/-- The reply `"ook\r\nok\r\n"`: a false start, then two confirmations of
which the scanner sees the second. -/
def falseStartReply : List Nat := [111, 111, 107, 13, 10, 111, 107, 13, 10]

/-- The boot banner `"start\r\n"` without its last byte. -/
def bannerHead : List Nat := [115, 116, 97, 114, 116, 13]

/-- An iteration in which the command source delivers the terminator `\n`
and the calls of `serial_write` it causes report failure. -/
def failedWriteEv : Event := { inputEv (ReadResult.byte 10) with writeFails := true }

/-! ## Compression, in the words of the spec -/

/-- The bytes of a line that precede its first `;`, without spaces and
tabs. -/
def compressed (line : List Nat) : List Nat :=
  (line.takeWhile (fun b => b != 59)).filter (fun b => b != 32 && b != 9)

/-- The payload expected for a line: compressed with `-c`, verbatim
without. -/
def payloadOf (cfg : Config) (line : List Nat) : List Nat :=
  if cfg.compress = true then compressed line else line

/-- The configuration `-c` with `max_unconfirmed = 0`. -/
def compressing : Config := { max_unconfirmed := 0, compress := true }

/-- The line `"  G1 X10 ; comment"` of the compression scenario. -/
def commentedLine : List Nat :=
  [32, 32, 71, 49, 32, 88, 49, 48, 32, 59, 32, 99, 111, 109, 109, 101, 110, 116]

/-! ## Scenario B: the device resets after the first line -/

/-- The reply stream of a device that was reset: `"start\r\n"`, then
`"ok\r\n"`. -/
def resetReply : List Nat := token START_MSG ++ token CONFIRM_MSG

/-- The device of scenario B: it answers the first line it receives with
`"start\r\n"` and `"ok\r\n"`, the retransmitted line with nothing more, and
every later line with `"ok\r\n"`. -/
def resetDevice : Device := fun k =>
  if k = 0 then resetReply else if k = 1 then [] else token CONFIRM_MSG

/-- The retransmission as it appears in the log. -/
def resendTrace (line : List Nat) : List Action :=
  [Action.machineReset, Action.serialWrite line, Action.serialWrite CRLF]

/-- The loop has the line `line` in flight and has scanned `j` bytes of
`resetReply`; `tr0` is the log at the time of the transmission. -/
def recovering (line : List Nat) (tr0 : List Action) (j : Nat) (s : State) : Prop :=
  s.confpoint = (if 8 ≤ j then j - 7 else 0) ∧
  s.startpoint = (if j ≤ 7 then j else 0) ∧
  s.unconfirmed = 1 ∧ s.inputdone = false ∧ s.inputEvents = 0 ∧ s.gccomment = false ∧
  s.gcodebuf.length = GCODE_BUFSIZE ∧
  s.gcpoint = line.length ∧ s.gcodebuf.take line.length = line ∧
  s.trace = tr0 ++ (if 7 ≤ j then resendTrace line else [])

/-- The loop has scanned all of `resetReply`: the line was retransmitted
once and then confirmed. -/
def recovered (line : List Nat) (tr0 : List Action) (s : State) : Prop :=
  accumulating s ∧ s.gcpoint = 0 ∧
  s.trace = tr0 ++ resendTrace line ++ [Action.confirmed true]

/-- Whatever the schedule, the closed loop reaches a situation with property
`P` after some number of iterations, and every situation before that has
property `inv`. -/
def untilReached (cfg : Config) (dev : Device) (inv : Sys → Prop) (a : Sys)
    (P : Sys → Prop) : Prop :=
  ∀ sched : Nat → Nat, ∃ n, P (closedRun cfg dev sched n a) ∧
    ∀ m, m < n → inv (closedRun cfg dev sched m a)

/-- Scenario B: the state of the loop right after `"G1 X10\n"` has been read
and transmitted. -/
def afterFirstLine : State :=
  (run lockstep init (inputEvs [71, 49, 32, 88, 49, 48, 10])).state

/-- Scenario B: the environment at that time: `"G1 X20\n"` unread, the reset
device's reply under way. -/
def afterFirstLineWorld : World :=
  { input := [71, 49, 32, 88, 50, 48, 10], pending := resetReply, received := 1 }

/-! ## Lemmas on the token scanner -/

theorem strlen_CONFIRM_MSG : strlen CONFIRM_MSG = 4 := by decide

theorem strlen_START_MSG : strlen START_MSG = 7 := by decide

@[simp] theorem andThen_cont (s : State) (f : State → Result) :
    (Result.cont s).andThen f = f s := rfl

@[simp] theorem andThen_exit (c : Nat) (s : State) (f : State → Result) :
    (Result.exit c s).andThen f = Result.exit c s := rfl

@[simp] theorem andThen_fault (s : State) (f : State → Result) :
    (Result.fault s).andThen f = Result.fault s := rfl

theorem andThen_eq_cont {r : Result} {f : State → Result} {s : State}
    (h : r.andThen f = Result.cont s) : ∃ s1, r = Result.cont s1 ∧ f s1 = Result.cont s := by
  cases r with
  | cont s1 => exact ⟨s1, rfl, h⟩
  | exit c s1 => simp at h
  | fault s1 => simp at h

theorem scanLoop_append (s : State) (xs ys : List Nat) :
    scanLoop s (xs ++ ys) = (scanLoop s xs).andThen (fun s1 => scanLoop s1 ys) := by
  induction xs generalizing s with
  | nil => simp [scanLoop]
  | cons x xs ih =>
    simp only [List.cons_append, scanLoop]
    cases h : scanByte s x with
    | cont s1 => simp [ih]
    | exit c s1 => simp
    | fault s1 => simp

theorem scanLoop_snoc_cont {s s2 : State} {xs : List Nat} {b : Nat}
    (h : scanLoop s (xs ++ [b]) = Result.cont s2) :
    ∃ s1, scanLoop s xs = Result.cont s1 ∧ scanByte s1 b = Result.cont s2 := by
  rw [scanLoop_append] at h
  obtain ⟨s1, h1, h2⟩ := andThen_eq_cont h
  refine ⟨s1, h1, ?_⟩
  simp only [scanLoop] at h2
  cases h3 : scanByte s1 b with
  | cont s3 => rw [h3] at h2; simpa using h2
  | exit c s3 => rw [h3] at h2; simp at h2
  | fault s3 => rw [h3] at h2; simp at h2


theorem scanConfirm_cursor (s : State) (b : Nat) (h : s.confpoint ≤ 3) :
    ∃ s1, scanConfirm s b = Result.cont s1 ∧ s1.startpoint = s.startpoint ∧
      s1.confpoint = (if CONFIRM_MSG[s.confpoint]? = some b then
        (if s.confpoint = 3 then 0 else s.confpoint + 1) else 0) ∧
      (confirmCount s1.trace = confirmCount s.trace +
        (if CONFIRM_MSG[s.confpoint]? = some b ∧ s.confpoint = 3 then 1 else 0)) := by
  have hc : s.confpoint = 0 ∨ s.confpoint = 1 ∨ s.confpoint = 2 ∨ s.confpoint = 3 := by omega
  rcases hc with hc | hc | hc | hc <;>
    simp only [scanConfirm, hc, strlen_CONFIRM_MSG] <;>
    simp [CONFIRM_MSG] <;> split_ifs <;> simp_all [confirmCount]



theorem scanStart_trace_count (s : State) (b : Nat) :
    confirmCount (scanStart s b).state.trace = confirmCount s.trace ∧
    (scanStart s b).state.confpoint = s.confpoint := by
  unfold scanStart
  dsimp only
  split
  · simp [Result.state]
  · split_ifs <;> simp [Result.state, confirmCount]

theorem scanStart_cont {s s1 : State} {b : Nat} (h : scanStart s b = Result.cont s1) :
    s.startpoint ≤ 7 ∧ s1.confpoint = s.confpoint ∧
    confirmCount s1.trace = confirmCount s.trace ∧
    s1.startpoint = (if START_MSG[s.startpoint]? = some b then s.startpoint + 1 else 0) := by
  have h1 := scanStart_trace_count s b
  rw [h] at h1
  simp only [Result.state] at h1
  refine ⟨?_, h1.2, h1.1, ?_⟩
  · by_contra hlt
    have : START_MSG[s.startpoint]? = none := by
      simp [START_MSG]; omega
    simp [scanStart, this] at h
  · unfold scanStart at h
    dsimp only at h
    split at h
    · simp at h
    · rename_i c hc
      rw [hc]
      have hcb : (c = b) = (b = c) := propext ⟨Eq.symm, Eq.symm⟩
      split_ifs at h with h2 h3 <;> simp at h <;> subst h <;> simp [hcb, h2]



theorem scanByte_cont {s s2 : State} {b : Nat} (h : scanByte s b = Result.cont s2)
    (hc : s.confpoint ≤ 3) :
    s.startpoint ≤ 7 ∧
    s2.confpoint = (if CONFIRM_MSG[s.confpoint]? = some b then
        (if s.confpoint = 3 then 0 else s.confpoint + 1) else 0) ∧
    s2.startpoint = (if START_MSG[s.startpoint]? = some b then s.startpoint + 1 else 0) ∧
    confirmCount s2.trace = confirmCount s.trace +
        (if CONFIRM_MSG[s.confpoint]? = some b ∧ s.confpoint = 3 then 1 else 0) := by
  obtain ⟨s1, h1, hs, hcp, hcnt⟩ := scanConfirm_cursor s b hc
  unfold scanByte at h
  rw [h1] at h
  simp only [andThen_cont] at h
  obtain ⟨a1, a2, a3, a4⟩ := scanStart_cont h
  rw [hs] at a1 a4
  exact ⟨a1, by rw [a2, hcp], a4, by rw [a3, hcnt]⟩

theorem scanByte_confpoint_le {s s2 : State} {b : Nat} (h : scanByte s b = Result.cont s2)
    (hc : s.confpoint ≤ 3) : s2.confpoint ≤ 3 := by
  obtain ⟨_, h2, _, _⟩ := scanByte_cont h hc
  rw [h2]
  split_ifs <;> omega

theorem scanLoop_confpoint_le {s s2 : State} {bs : List Nat}
    (h : scanLoop s bs = Result.cont s2) (hc : s.confpoint ≤ 3) : s2.confpoint ≤ 3 := by
  induction bs generalizing s with
  | nil => simp [scanLoop] at h; subst h; exact hc
  | cons b bs ih =>
    simp only [scanLoop] at h
    obtain ⟨s1, h1, h2⟩ := andThen_eq_cont h
    exact ih h2 (scanByte_confpoint_le h1 hc)

/-- A non-zero confirmation cursor was reached by the matching byte. -/
theorem confpoint_back {s0 sp : State} {pre : List Nat} {k : Nat}
    (h0 : s0.confpoint = 0) (h : scanLoop s0 pre = Result.cont sp)
    (hk : sp.confpoint = k + 1) :
    ∃ q sq b, pre = q ++ [b] ∧ CONFIRM_MSG[k]? = some b ∧
      scanLoop s0 q = Result.cont sq ∧ sq.confpoint = k := by
  rcases List.eq_nil_or_concat pre with hnil | ⟨q, b, hq⟩
  · subst hnil
    simp [scanLoop] at h
    subst h
    omega
  · rw [List.concat_eq_append] at hq
    subst hq
    obtain ⟨sq, h1, h2⟩ := scanLoop_snoc_cont h
    have hle := scanLoop_confpoint_le h1 (by omega : s0.confpoint ≤ 3)
    obtain ⟨_, h3, _, _⟩ := scanByte_cont h2 hle
    have key : CONFIRM_MSG[sq.confpoint]? = some b ∧ sq.confpoint = k := by
      rw [hk] at h3
      split_ifs at h3 with a1 a2
      exact ⟨a1, by omega⟩
    exact ⟨q, sq, b, rfl, key.2 ▸ key.1, h1, key.2⟩



theorem scanByte_startpoint_le {s s2 : State} {b : Nat} (h : scanByte s b = Result.cont s2)
    (hc : s.confpoint ≤ 3) : s2.startpoint ≤ 8 := by
  obtain ⟨h1, _, h3, _⟩ := scanByte_cont h hc
  rw [h3]
  split_ifs <;> omega

/-- A non-zero reset cursor was reached by the matching byte. -/
theorem startpoint_back {s0 sp : State} {pre : List Nat} {k : Nat}
    (hc0 : s0.confpoint = 0) (h0 : s0.startpoint = 0) (h : scanLoop s0 pre = Result.cont sp)
    (hk : sp.startpoint = k + 1) :
    ∃ q sq b, pre = q ++ [b] ∧ START_MSG[k]? = some b ∧
      scanLoop s0 q = Result.cont sq ∧ sq.startpoint = k := by
  rcases List.eq_nil_or_concat pre with hnil | ⟨q, b, hq⟩
  · subst hnil
    simp [scanLoop] at h
    subst h
    omega
  · rw [List.concat_eq_append] at hq
    subst hq
    obtain ⟨sq, h1, h2⟩ := scanLoop_snoc_cont h
    have hle := scanLoop_confpoint_le h1 (by omega : s0.confpoint ≤ 3)
    obtain ⟨_, _, h3, _⟩ := scanByte_cont h2 hle
    have key : START_MSG[sq.startpoint]? = some b ∧ sq.startpoint = k := by
      rw [hk] at h3
      split_ifs at h3 with a1
      exact ⟨a1, by omega⟩
    exact ⟨q, sq, b, rfl, key.2 ▸ key.1, h1, key.2⟩

theorem scanByte_total (s : State) (b : Nat) (hc : s.confpoint ≤ 3) (hs : s.startpoint ≤ 7) :
    ∃ s2, scanByte s b = Result.cont s2 := by
  obtain ⟨s1, h1, hs1, _, _⟩ := scanConfirm_cursor s b hc
  unfold scanByte
  rw [h1]
  simp only [andThen_cont]
  have hc : s1.startpoint = 0 ∨ s1.startpoint = 1 ∨ s1.startpoint = 2 ∨ s1.startpoint = 3 ∨
      s1.startpoint = 4 ∨ s1.startpoint = 5 ∨ s1.startpoint = 6 ∨ s1.startpoint = 7 := by omega
  unfold scanStart
  dsimp only
  rcases hc with hc | hc | hc | hc | hc | hc | hc | hc <;>
    simp only [hc, START_MSG] <;> simp <;> split_ifs <;> simp

/-- Scanning the first `k` bytes of the confirmation token from cursor 0. -/
theorem confpoint_forward (k : Nat) (hk : k ≤ 3) {sq sp : State}
    (h : scanLoop sq (CONFIRM_MSG.take k) = Result.cont sp) (h0 : sq.confpoint = 0) :
    sp.confpoint = k := by
  induction k generalizing sp with
  | zero => simp [scanLoop] at h; subst h; exact h0
  | succ k ih =>
    have hb : ∃ b, CONFIRM_MSG[k]? = some b := by
      have : k = 0 ∨ k = 1 ∨ k = 2 := by omega
      rcases this with h | h | h <;> subst h <;> simp [CONFIRM_MSG]
    obtain ⟨b, hb⟩ := hb
    rw [List.take_succ, hb] at h
    simp only [Option.toList] at h
    obtain ⟨sm, h1, h2⟩ := scanLoop_snoc_cont h
    have hm := ih (by omega) h1
    obtain ⟨_, h3, _, _⟩ := scanByte_cont h2 (by omega)
    rw [h3, hm, if_pos hb]
    split_ifs <;> omega

/-- Scanning the first `k` bytes of the reset token from cursor 0. -/
theorem startpoint_forward (k : Nat) (hk : k ≤ 7) {sq sp : State}
    (h : scanLoop sq (START_MSG.take k) = Result.cont sp) (h0 : sq.startpoint = 0)
    (hc : sq.confpoint ≤ 3) :
    sp.startpoint = k := by
  induction k generalizing sp with
  | zero => simp [scanLoop] at h; subst h; exact h0
  | succ k ih =>
    have hb : ∃ b, START_MSG[k]? = some b := by
      have : k = 0 ∨ k = 1 ∨ k = 2 ∨ k = 3 ∨ k = 4 ∨ k = 5 ∨ k = 6 := by omega
      rcases this with h | h | h | h | h | h | h <;> subst h <;> simp [START_MSG]
    obtain ⟨b, hb⟩ := hb
    rw [List.take_succ, hb] at h
    simp only [Option.toList] at h
    obtain ⟨sm, h1, h2⟩ := scanLoop_snoc_cont h
    have hm := ih (by omega) h1
    obtain ⟨_, _, h3, _⟩ := scanByte_cont h2 (scanLoop_confpoint_le h1 hc)
    rw [h3, hm, if_pos hb]

theorem scanLoop_split {s0 sq sp : State} {q r : List Nat}
    (h : scanLoop s0 (q ++ r) = Result.cont sp) (hq : scanLoop s0 q = Result.cont sq) :
    scanLoop sq r = Result.cont sp := by
  rw [scanLoop_append, hq] at h
  simpa using h



theorem completesConfirm_iff (sp : State) (b : Nat) (hc : sp.confpoint ≤ 3) :
    completesConfirm sp b ↔ sp.confpoint = 3 ∧ b = 10 := by
  obtain ⟨s1, h1, _, _, hcnt⟩ := scanConfirm_cursor sp b hc
  have h2 := (scanStart_trace_count s1 b).1
  unfold completesConfirm scanByte
  rw [h1]
  simp only [andThen_cont]
  rw [h2, hcnt]
  constructor
  · intro h
    split_ifs at h with a
    · obtain ⟨a1, a2⟩ := a
      rw [a2] at a1
      simp [CONFIRM_MSG] at a1
      exact ⟨a2, a1.symm⟩
    · omega
  · rintro ⟨a, rfl⟩
    rw [if_pos]
    rw [a]
    simp [CONFIRM_MSG]

theorem completesStart_iff (sp : State) (b : Nat) (hc : sp.confpoint ≤ 3) (hb : b ≠ 0) :
    completesStart sp b ↔ sp.startpoint = 6 ∧ b = 10 := by
  unfold completesStart
  rw [strlen_START_MSG]
  constructor
  · intro h
    split at h
    · rename_i s1 hs1
      obtain ⟨a1, _, a3, _⟩ := scanByte_cont hs1 hc
      rw [a3] at h
      split_ifs at h with a
      · have : sp.startpoint = 6 ∨ sp.startpoint = 7 := by omega
        rcases this with h6 | h7
        · rw [h6] at a
          simp [START_MSG] at a
          exact ⟨h6, a.symm⟩
        · rw [h7] at a
          simp [START_MSG] at a
          exact absurd a.symm hb
      · omega
    · exact h.elim
  · rintro ⟨a, rfl⟩
    obtain ⟨s2, h2⟩ := scanByte_total sp 10 hc (by omega)
    rw [h2]
    obtain ⟨_, _, a3, _⟩ := scanByte_cont h2 hc
    show s2.startpoint ≥ 7
    rw [a3, a]
    simp [START_MSG]

/-- C2 (amended): let the scan loop run from cursors at 0 over the bytes `pre`
and then see the byte `b`.  The confirmation token completes on `b` if and
only if the stream so far ends with `"ok\r\n"` and `confpoint` was 0 in front
of that occurrence.  For a byte `b` other than NUL, the reset token completes
on `b` if and only if the stream ends with `"start\r\n"` and `startpoint` was
0 in front of that occurrence. -/
theorem scanner_completion_iff (s0 sp : State) (pre : List Nat) (b : Nat)
    (hc : s0.confpoint = 0) (hs : s0.startpoint = 0)
    (hrun : scanLoop s0 pre = Result.cont sp) :
    (completesConfirm sp b ↔
      ∃ q sq, pre ++ [b] = q ++ token CONFIRM_MSG ∧
        scanLoop s0 q = Result.cont sq ∧ sq.confpoint = 0) ∧
    (b ≠ 0 →
      (completesStart sp b ↔
        ∃ q sq, pre ++ [b] = q ++ token START_MSG ∧
          scanLoop s0 q = Result.cont sq ∧ sq.startpoint = 0)) := by
  have hle : sp.confpoint ≤ 3 := scanLoop_confpoint_le hrun (by omega)
  have htc : token CONFIRM_MSG = [111, 107, 13] ++ [10] := by decide
  have hts : token START_MSG = [115, 116, 97, 114, 116, 13] ++ [10] := by decide
  constructor
  · rw [completesConfirm_iff sp b hle, htc]
    constructor
    · rintro ⟨h3, rfl⟩
      obtain ⟨q3, s3, b3, e3, t3, r3, c3⟩ := confpoint_back hc hrun h3
      obtain ⟨q2, s2, b2, e2, t2, r2, c2⟩ := confpoint_back hc r3 c3
      obtain ⟨q1, s1, b1, e1, t1, r1, c1⟩ := confpoint_back hc r2 c2
      simp [CONFIRM_MSG] at t3 t2 t1
      subst t3 t2 t1 e3 e2 e1
      exact ⟨q1, s1, by simp, r1, c1⟩
    · rintro ⟨q, sq, e, r, c⟩
      rw [← List.append_assoc] at e
      have e1 := List.append_inj_left' e rfl
      have e2 := List.append_inj_right' e rfl
      simp at e2
      subst e1
      refine ⟨?_, e2⟩
      have := scanLoop_split hrun r
      exact confpoint_forward 3 (by omega) this c
  · intro hb
    rw [completesStart_iff sp b hle hb, hts]
    constructor
    · rintro ⟨h6, rfl⟩
      obtain ⟨q6, s6, b6, e6, t6, r6, c6⟩ := startpoint_back hc hs hrun h6
      obtain ⟨q5, s5, b5, e5, t5, r5, c5⟩ := startpoint_back hc hs r6 c6
      obtain ⟨q4, s4, b4, e4, t4, r4, c4⟩ := startpoint_back hc hs r5 c5
      obtain ⟨q3, s3, b3, e3, t3, r3, c3⟩ := startpoint_back hc hs r4 c4
      obtain ⟨q2, s2, b2, e2, t2, r2, c2⟩ := startpoint_back hc hs r3 c3
      obtain ⟨q1, s1, b1, e1, t1, r1, c1⟩ := startpoint_back hc hs r2 c2
      simp [START_MSG] at t6 t5 t4 t3 t2 t1
      subst t6 t5 t4 t3 t2 t1 e6 e5 e4 e3 e2 e1
      exact ⟨q1, s1, by simp, r1, c1⟩
    · rintro ⟨q, sq, e, r, c⟩
      rw [← List.append_assoc] at e
      have e1 := List.append_inj_left' e rfl
      have e2 := List.append_inj_right' e rfl
      simp at e2
      subst e1
      refine ⟨?_, e2⟩
      have := scanLoop_split hrun r
      exact startpoint_forward 6 (by omega) this c (scanLoop_confpoint_le r (by omega))

/-- The theorem `scanner_completion_iff` applied to the reply `"xok\r\n"`. -/
theorem scanner_completion_iff_witness :
    init.confpoint = 0 ∧ init.startpoint = 0 ∧
    scanLoop init [120, 111, 107, 13] = Result.cont (scanLoop init [120, 111, 107, 13]).state ∧
    ((completesConfirm (scanLoop init [120, 111, 107, 13]).state 10 ↔
      ∃ q sq, [120, 111, 107, 13] ++ [10] = q ++ token CONFIRM_MSG ∧
        scanLoop init q = Result.cont sq ∧ sq.confpoint = 0) ∧
    ((10 : Nat) ≠ 0 →
      (completesStart (scanLoop init [120, 111, 107, 13]).state 10 ↔
        ∃ q sq, [120, 111, 107, 13] ++ [10] = q ++ token START_MSG ∧
          scanLoop init q = Result.cont sq ∧ sq.startpoint = 0))) :=
  ⟨rfl, rfl, rfl,
    scanner_completion_iff init _ [120, 111, 107, 13] 10 rfl rfl rfl⟩

/-- C2 as stated fails on the reply `"ook\r\n"`: its last four bytes are
`"ok\r\n"`, and the scanner reports no completed match on the last byte (the
second `o` has reset `confpoint`, and is not looked at again). -/
theorem scanner_misses_after_false_start :
    ([111, 111, 107, 13] ++ [10]).drop 1 = token CONFIRM_MSG ∧
    scanLoop init [111, 111, 107, 13] = Result.cont (scanLoop init [111, 111, 107, 13]).state ∧
    ¬ completesConfirm (scanLoop init [111, 111, 107, 13]).state 10 :=
  ⟨rfl, rfl, by decide⟩

/-! ## The loop at concrete inputs -/

/-- C3 fails with `-u 1`: after the line `"A"` has been transmitted
(`unconfirmed = 1`) and the byte `B` of the next line has been read, the reset
token `"start\r\n"` makes the loop write `"AB"` and `"\r\n"`, not the line
`"A"` transmitted last; `unconfirmed` stays 1. -/
theorem reset_resends_partial_next_line :
    writesOf (run (writeAhead 1) init (inputEvs [65, 10, 66])).state.trace = [[65], CRLF] ∧
    (run (writeAhead 1) init (inputEvs [65, 10, 66])).state.unconfirmed = 1 ∧
    writesOf (run (writeAhead 1) init
      (inputEvs [65, 10, 66] ++ [serialEv (token START_MSG)])).state.trace
      = [[65], CRLF, [65, 66], CRLF] ∧
    (run (writeAhead 1) init
      (inputEvs [65, 10, 66] ++ [serialEv (token START_MSG)])).state.unconfirmed = 1 := by
  decide

/-- C4 fails when `poll` reports `POLLHUP` for the command source: with
`max_unconfirmed = 0`, after `"A\n"` the loop is at `unconfirmed = 1` with
`fds[FD_INPUT].events = 0`; the next iteration still calls `read`, and after
the bytes `B` and `\n` a second line (`"AB"`) is transmitted and
`unconfirmed = 2`. -/
theorem hangup_breaks_lockstep :
    (run lockstep init (inputEvs [65, 10])).state.unconfirmed = 1 ∧
    (run lockstep init (inputEvs [65, 10])).state.inputEvents = 0 ∧
    readsInput lockstep (run lockstep init (inputEvs [65, 10])).state
      (hangupEv (ReadResult.byte 66)) ∧
    writesOf (run lockstep init (inputEvs [65, 10] ++
      [hangupEv (ReadResult.byte 66), hangupEv (ReadResult.byte 10)])).state.trace
      = [[65], CRLF, [65, 66], CRLF] ∧
    (run lockstep init (inputEvs [65, 10] ++
      [hangupEv (ReadResult.byte 66), hangupEv (ReadResult.byte 10)])).state.unconfirmed = 2 := by
  decide

/-- C5 fails with `-u 1`: for the input `"A\nB\n"` and no confirmation in
between, the framer writes `"A"`, `"\r\n"`, `"AB"`, `"\r\n"` (the buffer is not
empty after the first transmission); for the input `"A\r\n"` the second
terminator transmits `"A"` again. -/
theorem write_ahead_concatenates_lines :
    writesOf (run (writeAhead 1) init (inputEvs [65, 10, 66, 10])).state.trace
      = [[65], CRLF, [65, 66], CRLF] ∧
    expectedWrites [([65], 10), ([66], 10)] = [[65], CRLF, [66], CRLF] ∧
    (run (writeAhead 1) init (inputEvs [65, 10])).state.gcpoint = 1 ∧
    writesOf (run (writeAhead 1) init (inputEvs [65, 13, 10])).state.trace
      = [[65], CRLF, [65], CRLF] := by
  decide

/-- C9 fails: with `-u 1`, after `"A\n"` and a `read` that returned 0
(`inputdone = 1`, `unconfirmed = 1`), an iteration woken by the serial port
alone calls `read` on the command source again. -/
theorem read_repeated_while_draining :
    (run (writeAhead 1) init (inputEvs [65, 10] ++ [inputEv ReadResult.eof])).state.inputdone
      = true ∧
    (run (writeAhead 1) init (inputEvs [65, 10] ++ [inputEv ReadResult.eof])).state.unconfirmed
      = 1 ∧
    readsInput (writeAhead 1)
      (run (writeAhead 1) init (inputEvs [65, 10] ++ [inputEv ReadResult.eof])).state
      (serialEv [111]) ∧
    readCount (run (writeAhead 1) init
      (inputEvs [65, 10] ++ [inputEv ReadResult.eof, serialEv [111]])).state.trace = 4 := by
  decide

set_option maxRecDepth 1000000 in
/-- C10 fails: a line of 513 bytes `A` without terminator fills `gcodebuf`
with the first 512 and the 513th store is at index `gcpoint = 512`, outside
the array. -/
theorem long_line_overflows_gcodebuf :
    (run lockstep init (inputEvs (List.replicate 512 65))).state.gcpoint = GCODE_BUFSIZE ∧
    (match run lockstep init (inputEvs (List.replicate 513 65)) with
      | Result.fault s => s.gcpoint
      | _ => 0) = GCODE_BUFSIZE := by
  decide

/-! ## Invariants of the main loop -/

theorem andThen_state {P : State → Prop} {r : Result} {f : State → Result}
    (hr : P r.state) (hf : ∀ s, P s → P (f s).state) : P (r.andThen f).state := by
  cases r with
  | cont s => exact hf s hr
  | exit c s => exact hr
  | fault s => exact hr

theorem scanLoop_state {P : State → Prop} (hb : ∀ s b, P s → P (scanByte s b).state)
    (s : State) (bs : List Nat) (hs : P s) : P (scanLoop s bs).state := by
  induction bs generalizing s with
  | nil => exact hs
  | cons b bs ih =>
    simp only [scanLoop]
    exact andThen_state (hb s b hs) (fun s1 h1 => ih s1 h1)

theorem run_state {P : State → Prop} {cfg : Config}
    (hstep : ∀ s ev, P s → P (step cfg s ev).state)
    (s : State) (evs : List Event) (hs : P s) : P (run cfg s evs).state := by
  induction evs generalizing s with
  | nil => exact hs
  | cons ev evs ih =>
    simp only [run]
    exact andThen_state (hstep s ev hs) (fun s1 h1 => ih s1 h1)

theorem scanConfirm_counterBound (s : State) (b : Nat) (h : counterBound s) :
    counterBound (scanConfirm s b).state := by
  unfold counterBound at *
  unfold scanConfirm
  dsimp only
  split
  · exact h
  · split_ifs with h1 h2 h3
    · have hd : decide (0 < s.unconfirmed) = true := by simpa using h3
      simp [Result.state, countedConfirms, sentCount, List.count_append, hd] at *
      omega
    · have hd : decide (0 < s.unconfirmed) = false := by simpa using h3
      simp [Result.state, countedConfirms, sentCount, List.count_append, hd] at *
      omega
    · exact h
    · exact h

theorem scanStart_counterBound (s : State) (b : Nat) (h : counterBound s) :
    counterBound (scanStart s b).state := by
  unfold counterBound at *
  unfold scanStart
  dsimp only
  split
  · exact h
  · split_ifs <;>
      simp [Result.state, countedConfirms, sentCount, List.count_append] at * <;> omega

theorem frame_counterBound (cfg : Config) (s : State) (ch : Nat) (h : counterBound s) :
    counterBound (frame cfg s ch).state := by
  unfold counterBound at *
  unfold frame store
  dsimp only
  have hm : (s.unconfirmed + 1) % UINT_MOD ≤ s.unconfirmed + 1 := Nat.mod_le _ _
  split_ifs <;>
    simp [Result.state, countedConfirms, sentCount, List.count_append] at * <;> omega

theorem step_counterBound (cfg : Config) (s : State) (ev : Event) (h : counterBound s) :
    counterBound (step cfg s ev).state := by
  unfold step
  split_ifs
  · exact h
  · exact h
  · apply andThen_state
    · unfold serialPart
      have hp : counterBound (pollPart s ev) := by
        unfold pollPart counterBound at *
        split_ifs <;> exact h
      split_ifs
      · exact scanLoop_state
          (fun s b hs => andThen_state (scanConfirm_counterBound s b hs)
            (fun s1 h1 => scanStart_counterBound s1 b h1)) _ _ hp
      · exact hp
    · intro s1 h1
      unfold inputPart
      dsimp only
      split_ifs
      · split
        · exact (by simpa [counterBound, Result.state, countedConfirms, sentCount,
            List.count_append] using h1)
        · exact (by simpa [counterBound, Result.state, countedConfirms, sentCount,
            List.count_append] using h1)
        · apply frame_counterBound
          simpa [counterBound, Result.state, countedConfirms, sentCount,
            List.count_append] using h1
      · exact h1

/-- C6 (amended): in every state the main loop reaches, for every sequence of
events, `unconfirmed >= 0` and `unconfirmed` is at most the number of command
lines transmitted by the framer minus the number of confirmation-token
completions that found `unconfirmed > 0` (a completion that finds the counter
at 0 leaves it at 0 and is not counted). -/
theorem unconfirmed_bound (cfg : Config) (evs : List Event) :
    (0 : Int) ≤ (run cfg init evs).state.unconfirmed ∧
    ((run cfg init evs).state.unconfirmed : Int) ≤
      (sentCount (run cfg init evs).state.trace : Int) -
        (countedConfirms (run cfg init evs).state.trace : Int) := by
  have h := run_state (step_counterBound cfg) init evs
    (by simp [counterBound, init, countedConfirms, sentCount])
  unfold counterBound at h
  constructor <;> omega

/-- C6 as stated fails when the device sends `"ok\r\n"` before any command:
no line has been transmitted, one confirmation completion has been observed,
and `unconfirmed = 0` exceeds `0 - 1`. -/
theorem spurious_confirmation_breaks_bound :
    ¬ (((run lockstep init [serialEv (token CONFIRM_MSG)]).state.unconfirmed : Int) ≤
      (sentCount (run lockstep init [serialEv (token CONFIRM_MSG)]).state.trace : Int) -
        (confirmCount (run lockstep init [serialEv (token CONFIRM_MSG)]).state.trace : Int)) := by
  decide

theorem scanByte_flowInv (cfg : Config) (s : State) (b : Nat) (h : flowInv cfg s) :
    flowInv cfg (scanByte s b).state := by
  unfold scanByte
  apply andThen_state
  · obtain ⟨h1, h2, h3⟩ := h
    unfold scanConfirm
    dsimp only
    split
    · exact ⟨h1, h2, h3⟩
    · split_ifs
      · refine ⟨Or.inl rfl, ?_, fun _ => ⟨fun _ => ?_, fun _ => rfl⟩⟩ <;>
          simp only [Result.state] <;> omega
      · refine ⟨Or.inl rfl, ?_, fun _ => ⟨fun _ => ?_, fun _ => rfl⟩⟩ <;>
          simp only [Result.state] <;> omega
      · exact ⟨h1, h2, h3⟩
      · exact ⟨h1, h2, h3⟩
  · intro s1 h1
    unfold scanStart
    dsimp only
    split
    · exact h1
    · split_ifs <;> exact h1

theorem scanByte_flowOpen (cfg : Config) (s : State) (b : Nat) (h : flowOpen cfg s) :
    flowOpen cfg (scanByte s b).state := by
  unfold scanByte
  apply andThen_state
  · obtain ⟨h1, h2⟩ := h
    unfold scanConfirm
    dsimp only
    split
    · exact ⟨h1, h2⟩
    · split_ifs
      · refine ⟨rfl, ?_⟩
        simp only [Result.state]; omega
      · refine ⟨rfl, ?_⟩
        simp only [Result.state]; omega
      · exact ⟨h1, h2⟩
      · exact ⟨h1, h2⟩
  · intro s1 h1
    unfold scanStart
    dsimp only
    split
    · exact h1
    · split_ifs <;> exact h1

theorem scanByte_readCount (s : State) (b : Nat) :
    readCount (scanByte s b).state.trace = readCount s.trace := by
  unfold scanByte
  have h1 : readCount (scanConfirm s b).state.trace = readCount s.trace := by
    unfold scanConfirm
    dsimp only
    split
    · rfl
    · split_ifs <;> simp [Result.state, readCount]
  have h2 : ∀ s1, readCount (scanStart s1 b).state.trace = readCount s1.trace := by
    intro s1
    unfold scanStart
    dsimp only
    split
    · rfl
    · split_ifs <;> simp [Result.state, readCount]
  cases h : scanConfirm s b with
  | cont s1 => rw [h] at h1; simp only [andThen_cont]; rw [h2]; exact h1
  | exit c s1 => rw [h] at h1; exact h1
  | fault s1 => rw [h] at h1; exact h1

theorem scanLoop_readCount (s : State) (bs : List Nat) :
    readCount (scanLoop s bs).state.trace = readCount s.trace := by
  induction bs generalizing s with
  | nil => rfl
  | cons b bs ih =>
    simp only [scanLoop]
    cases h : scanByte s b with
    | cont s1 =>
      simp only [andThen_cont]
      rw [ih, ← scanByte_readCount s b, h]; rfl
    | exit c s1 => rw [← scanByte_readCount s b, h]; rfl
    | fault s1 => rw [← scanByte_readCount s b, h]; rfl

theorem serialPart_readCount (s : State) (ev : Event) :
    readCount (serialPart s ev).state.trace = readCount s.trace := by
  unfold serialPart
  split_ifs
  · exact scanLoop_readCount _ _
  · rfl

theorem frame_readCount (cfg : Config) (s : State) (ch : Nat) :
    readCount (frame cfg s ch).state.trace = readCount s.trace := by
  unfold frame store
  dsimp only
  split_ifs <;> simp [Result.state, readCount]

theorem frame_flowInv (cfg : Config) (s : State) (ch : Nat) (h : flowOpen cfg s) :
    flowInv cfg (frame cfg s ch).state := by
  obtain ⟨h1, h2⟩ := h
  have hm : (s.unconfirmed + 1) % UINT_MOD ≤ s.unconfirmed + 1 := Nat.mod_le _ _
  have hp : POLLIN ≠ 0 := by decide
  unfold frame store flowInv
  dsimp only
  split_ifs <;> dsimp only [Result.state] <;>
    first
    | exact ⟨Or.inl h1, by omega, fun _ => ⟨fun _ => h2, fun _ => h1⟩⟩
    | exact ⟨Or.inr rfl, by omega, fun _ => ⟨fun hh => absurd hh.symm hp, fun hh => by omega⟩⟩
    | exact ⟨Or.inl h1, by omega, fun _ => ⟨fun _ => by omega, fun _ => h1⟩⟩

theorem inputPart_flowInv (cfg : Config) (s : State) (ev : Event) (h : flowOpen cfg s) :
    flowInv cfg (inputPart cfg s ev).state := by
  have hI : flowInv cfg s := ⟨Or.inl h.1, by have := h.2; omega, fun _ => ⟨fun _ => h.2, fun _ => h.1⟩⟩
  unfold inputPart
  dsimp only
  split_ifs
  · split
    · exact ⟨Or.inr rfl, hI.2.1, fun hh => by simp [Result.state] at hh⟩
    · exact hI
    · exact frame_flowInv cfg _ _ h
  · exact hI

theorem inputPart_readCount (cfg : Config) (s : State) (ev : Event)
    (h : s.inputRevents &&& POLLIN ≠ 0 ∨ s.inputRevents &&& POLLHUP ≠ 0) :
    readCount (inputPart cfg s ev).state.trace = readCount s.trace + 1 := by
  unfold inputPart
  dsimp only
  rw [if_pos h]
  split
  · simp [Result.state, readCount]
  · simp [Result.state, readCount]
  · rw [frame_readCount]
    simp [readCount]

theorem pollPart_flowInv (cfg : Config) (s : State) (ev : Event) (h : flowInv cfg s) :
    flowInv cfg (pollPart s ev) := by
  unfold pollPart
  split_ifs <;> exact h

theorem step_flowInv (cfg : Config) (s : State) (ev : Event) (h : flowInv cfg s)
    (hr : readsInput cfg s ev → pollRequested s ev) :
    flowInv cfg (step cfg s ev).state := by
  unfold readsInput at hr
  unfold step at hr ⊢
  split_ifs at hr ⊢ with c1 c2
  · exact h
  · exact h
  · have hp := pollPart_flowInv cfg s ev h
    have hs : flowInv cfg (serialPart (pollPart s ev) ev).state := by
      unfold serialPart
      split_ifs
      · exact scanLoop_state (scanByte_flowInv cfg) _ _ hp
      · exact hp
    have hrc := serialPart_readCount (pollPart s ev) ev
    have hpc : readCount (pollPart s ev).trace = readCount s.trace := by
      unfold pollPart; split_ifs <;> rfl
    cases hsp : serialPart (pollPart s ev) ev with
    | exit c s1 => rw [hsp] at hs; exact hs
    | fault s1 => rw [hsp] at hs; exact hs
    | cont s1 =>
      rw [hsp] at hs hr hrc
      simp only [andThen_cont] at hr ⊢
      simp only [Result.state] at hrc hs
      by_cases hc : s1.inputRevents &&& POLLIN ≠ 0 ∨ s1.inputRevents &&& POLLHUP ≠ 0
      · have hreq := hr (by rw [inputPart_readCount cfg s1 ev hc]; omega)
        obtain ⟨q1, q2, _, _⟩ := hreq
        have hev : s.inputEvents = POLLIN := by
          rcases h.1 with e | e
          · exact e
          · rw [e] at q2; simp at q2
        have ho : flowOpen cfg (pollPart s ev) := by
          have : flowOpen cfg s := ⟨hev, (h.2.2 q1).1 hev⟩
          unfold pollPart; split_ifs <;> exact this
        have ho1 : flowOpen cfg (serialPart (pollPart s ev) ev).state := by
          unfold serialPart
          split_ifs
          · exact scanLoop_state (scanByte_flowOpen cfg) _ _ ho
          · exact ho
        rw [hsp] at ho1
        exact inputPart_flowInv cfg s1 ev ho1
      · unfold inputPart
        rw [if_neg hc]
        exact hs

theorem run_flowInv (cfg : Config) (s : State) (evs : List Event) (h : flowInv cfg s)
    (hr : readsOnRequest cfg s evs) : flowInv cfg (run cfg s evs).state := by
  induction evs generalizing s with
  | nil => exact h
  | cons ev evs ih =>
    obtain ⟨hr1, hr2⟩ := hr
    have h1 := step_flowInv cfg s ev h hr1
    simp only [run]
    cases hst : step cfg s ev with
    | cont s1 =>
      rw [hst] at h1 hr2
      exact ih s1 h1 hr2
    | exit c s1 => rw [hst] at h1; exact h1
    | fault s1 => rw [hst] at h1; exact h1

/-- C7: along every run from the initial state in which the command source is
read only in iterations where `poll` reported requested `POLLIN` readiness
and no hang-up, at every loop head before end of input `POLLIN` is requested
for the command source if and only if `unconfirmed <= max_unconfirmed`; and
`unconfirmed <= max_unconfirmed + 1` in every state reached. -/
theorem flow_control_predicate (cfg : Config) (evs : List Event)
    (hreq : readsOnRequest cfg init evs) :
    (∀ s, run cfg init evs = Result.cont s → s.inputdone = false →
      (s.inputEvents &&& POLLIN ≠ 0 ↔ s.unconfirmed ≤ cfg.max_unconfirmed)) ∧
    (run cfg init evs).state.unconfirmed ≤ cfg.max_unconfirmed + 1 := by
  have h0 : flowInv cfg init :=
    ⟨Or.inl rfl, by simp [init], fun _ => ⟨fun _ => by simp [init], fun _ => rfl⟩⟩
  have h := run_flowInv cfg init evs h0 hreq
  refine ⟨?_, h.2.1⟩
  intro s hs hd
  rw [hs] at h
  obtain ⟨h1, _, h3⟩ := h
  simp only [Result.state] at h1 h3
  rw [← h3 hd]
  rcases h1 with e | e <;> rw [e] <;> decide

/-- The theorem `flow_control_predicate` applied to the input `"A\n"` in
lockstep. -/
theorem flow_control_predicate_witness :
    readsOnRequest lockstep init (inputEvs [65, 10]) ∧
    (∀ s, run lockstep init (inputEvs [65, 10]) = Result.cont s → s.inputdone = false →
      (s.inputEvents &&& POLLIN ≠ 0 ↔ s.unconfirmed ≤ lockstep.max_unconfirmed)) ∧
    (run lockstep init (inputEvs [65, 10])).state.unconfirmed ≤ lockstep.max_unconfirmed + 1 :=
  ⟨by decide, flow_control_predicate lockstep (inputEvs [65, 10]) (by decide)⟩

theorem scanLoop_not_exit (s : State) (bs : List Nat) (c : Nat) (sf : State) :
    scanLoop s bs ≠ Result.exit c sf := by
  induction bs generalizing s with
  | nil => simp [scanLoop]
  | cons b bs ih =>
    simp only [scanLoop]
    have hb : ∀ c1 s1, scanByte s b ≠ Result.exit c1 s1 := by
      intro c1 s1
      unfold scanByte
      have h1 : ∀ c2 s2, scanConfirm s b ≠ Result.exit c2 s2 := by
        intro c2 s2
        unfold scanConfirm
        dsimp only
        split
        · simp
        · split_ifs <;> simp
      have h2 : ∀ s3 c2 s2, scanStart s3 b ≠ Result.exit c2 s2 := by
        intro s3 c2 s2
        unfold scanStart
        dsimp only
        split
        · simp
        · split_ifs <;> simp
      cases h : scanConfirm s b with
      | cont s2 => simp only [andThen_cont]; exact h2 _ _ _
      | exit c2 s2 => exact absurd h (h1 _ _)
      | fault s2 => simp
    cases h : scanByte s b with
    | cont s1 => simp only [andThen_cont]; exact ih s1
    | exit c1 s1 => exact absurd h (hb _ _)
    | fault s1 => simp

theorem frame_not_exit (cfg : Config) (s : State) (ch c : Nat) (sf : State) :
    frame cfg s ch ≠ Result.exit c sf := by
  unfold frame store
  dsimp only
  split_ifs <;> simp

theorem step_exit_success {cfg : Config} {s sf : State} {ev : Event}
    (h : step cfg s ev = Result.exit EXIT_SUCCESS sf) :
    sf = s ∧ s.inputdone = true ∧ s.unconfirmed = 0 := by
  unfold step at h
  split_ifs at h with c1 c2
  · simp at h
    exact ⟨h.symm, c1.1, c1.2⟩
  · simp [EXIT_SUCCESS, EXIT_FAILURE] at h
  · exfalso
    cases hs : serialPart (pollPart s ev) ev with
    | exit c s1 =>
      unfold serialPart at hs
      split_ifs at hs
      · exact scanLoop_not_exit _ _ _ _ hs
    | fault s1 => rw [hs] at h; simp at h
    | cont s1 =>
      rw [hs] at h
      simp only [andThen_cont] at h
      unfold inputPart at h
      dsimp only at h
      split_ifs at h
      · split at h
        · simp at h
        · simp [EXIT_SUCCESS, EXIT_FAILURE] at h
        · exact frame_not_exit _ _ _ _ _ h

theorem run_exit_success {cfg : Config} {s sf : State} {evs : List Event}
    (h : run cfg s evs = Result.exit EXIT_SUCCESS sf) :
    sf.inputdone = true ∧ sf.unconfirmed = 0 := by
  induction evs generalizing s with
  | nil => simp [run] at h
  | cons ev evs ih =>
    simp only [run] at h
    cases hst : step cfg s ev with
    | cont s1 => rw [hst] at h; exact ih h
    | exit c s1 =>
      rw [hst] at h
      simp at h
      obtain ⟨rfl, rfl⟩ := h
      obtain ⟨e, h1, h2⟩ := step_exit_success hst
      rw [e]; exact ⟨h1, h2⟩
    | fault s1 => rw [hst] at h; simp at h



theorem run_state_mem {P : State → Prop} {cfg : Config} (evs : List Event)
    (hstep : ∀ s ev, ev ∈ evs → P s → P (step cfg s ev).state)
    (s : State) (hs : P s) : P (run cfg s evs).state := by
  induction evs generalizing s with
  | nil => exact hs
  | cons ev evs ih =>
    simp only [run]
    exact andThen_state (hstep s ev (List.mem_cons_self _ _) hs)
      (fun s1 h1 => ih (fun s2 ev2 hm => hstep s2 ev2 (List.mem_cons_of_mem _ hm)) s1 h1)

theorem scanByte_eofSeen (s : State) (b : Nat) (h : eofSeen s) :
    eofSeen (scanByte s b).state := by
  unfold scanByte
  apply andThen_state
  · unfold eofSeen at *
    unfold scanConfirm
    dsimp only
    split
    · exact h
    · split_ifs <;> simp only [Result.state] <;> intro hd <;> simp [h hd]
  · intro s1 h1
    unfold eofSeen at *
    unfold scanStart
    dsimp only
    split
    · exact h1
    · split_ifs <;> simp only [Result.state] <;> intro hd <;> simp [h1 hd]

theorem frame_eofSeen (cfg : Config) (s : State) (ch : Nat) (h : eofSeen s) :
    eofSeen (frame cfg s ch).state := by
  unfold eofSeen at *
  unfold frame store
  dsimp only
  split_ifs <;> simp only [Result.state] <;> intro hd <;> simp [h hd]

theorem step_eofSeen (cfg : Config) (s : State) (ev : Event) (h : eofSeen s) :
    eofSeen (step cfg s ev).state := by
  unfold step
  split_ifs
  · exact h
  · exact h
  · apply andThen_state
    · have hp : eofSeen (pollPart s ev) := by
        unfold pollPart
        split_ifs <;> exact h
      unfold serialPart
      split_ifs
      · exact scanLoop_state scanByte_eofSeen _ _ hp
      · exact hp
    · intro s1 h1
      unfold inputPart
      dsimp only
      split_ifs
      · split
        · rename_i he
          intro _
          simp [Result.state, he]
        · intro hd
          simp [Result.state, h1 hd]
        · apply frame_eofSeen
          intro hd
          simp [h1 hd]
      · exact h1

theorem scanByte_drainBound (n u0 : Nat) (s : State) (b : Nat)
    (h : drainBound n s ∧ s.unconfirmed ≤ u0) :
    drainBound n (scanByte s b).state ∧ (scanByte s b).state.unconfirmed ≤ u0 := by
  unfold scanByte
  apply andThen_state (P := fun s => drainBound n s ∧ s.unconfirmed ≤ u0)
  · unfold drainBound at *
    unfold scanConfirm
    dsimp only
    split
    · exact h
    · split_ifs <;> simp [Result.state, confirmCount] at * <;> omega
  · intro s1 h1
    unfold drainBound at *
    unfold scanStart
    dsimp only
    split
    · exact h1
    · split_ifs <;> simp [Result.state, confirmCount] at * <;> omega

theorem frame_drainBound (cfg : Config) (n : Nat) (s : State) (ch : Nat)
    (hu : s.unconfirmed + 1 < UINT_MOD) (h : drainBound n s) :
    drainBound n (frame cfg s ch).state ∧
      (frame cfg s ch).state.unconfirmed ≤ s.unconfirmed + 1 := by
  have hm : (s.unconfirmed + 1) % UINT_MOD = s.unconfirmed + 1 := Nat.mod_eq_of_lt hu
  unfold drainBound at *
  unfold frame store
  dsimp only
  split_ifs <;> simp [Result.state, confirmCount, hm] at * <;> omega

theorem andThen_state2 {P Q : State → Prop} {r : Result} {f : State → Result}
    (hr : P r.state) (hPQ : ∀ s, P s → Q s) (hf : ∀ s, P s → Q (f s).state) :
    Q (r.andThen f).state := by
  cases r with
  | cont s => exact hf s hr
  | exit c s => exact hPQ _ hr
  | fault s => exact hPQ _ hr

theorem step_drainBound (cfg : Config) (n : Nat) (s : State) (ev : Event)
    (he : ev.input = ReadResult.eof ∨ s.unconfirmed + 1 < UINT_MOD) (h : drainBound n s) :
    drainBound n (step cfg s ev).state ∧ (step cfg s ev).state.unconfirmed ≤ s.unconfirmed + 1 := by
  unfold step
  split_ifs
  · exact ⟨h, by simp [Result.state]⟩
  · exact ⟨h, by simp [Result.state]⟩
  · have hp : drainBound n (pollPart s ev) ∧ (pollPart s ev).unconfirmed ≤ s.unconfirmed := by
      unfold pollPart
      split_ifs <;> exact ⟨h, Nat.le_refl _⟩
    have hs : drainBound n (serialPart (pollPart s ev) ev).state ∧
        (serialPart (pollPart s ev) ev).state.unconfirmed ≤ s.unconfirmed := by
      unfold serialPart
      split_ifs
      · exact scanLoop_state (P := fun x => drainBound n x ∧ x.unconfirmed ≤ s.unconfirmed)
          (scanByte_drainBound n s.unconfirmed) _ _ hp
      · exact hp
    apply andThen_state2 (P := fun x => drainBound n x ∧ x.unconfirmed ≤ s.unconfirmed)
      (Q := fun x => drainBound n x ∧ x.unconfirmed ≤ s.unconfirmed + 1) hs
    · intro s1 h1
      exact ⟨h1.1, by have := h1.2; omega⟩
    · intro s1 h1
      obtain ⟨h1a, h1b⟩ := h1
      unfold inputPart
      dsimp only
      split_ifs
      · split
        · unfold drainBound at *
          simp only [Result.state]
          constructor
          · simpa [confirmCount] using h1a
          · omega
        · unfold drainBound at *
          simp only [Result.state]
          constructor
          · simpa [confirmCount] using h1a
          · omega
        · rename_i ch hch
          rcases he with he | he
          · rw [he] at hch; simp at hch
          · have hf := frame_drainBound cfg n
              { s1 with trace := s1.trace ++ [Action.inputRead ev.input] } ch
              (by simp only; omega)
              (by unfold drainBound at *; simpa [confirmCount] using h1a)
            exact ⟨hf.1, by have := hf.2; simp only at this; omega⟩
      · exact ⟨h1a, by simp only [Result.state]; omega⟩

theorem run_drainBound (cfg : Config) (n : Nat) (s : State) (evs : List Event)
    (he : (∀ ev ∈ evs, ev.input = ReadResult.eof) ∨ s.unconfirmed + evs.length < UINT_MOD)
    (h : drainBound n s) : drainBound n (run cfg s evs).state := by
  induction evs generalizing s with
  | nil => exact h
  | cons ev evs ih =>
    have hst := step_drainBound cfg n s ev
      (by
        rcases he with he | he
        · exact Or.inl (he ev (List.mem_cons_self _ _))
        · right
          simp only [List.length_cons] at he
          omega) h
    simp only [run]
    cases hr : step cfg s ev with
    | cont s1 =>
      rw [hr] at hst
      simp only [Result.state] at hst
      simp only [andThen_cont]
      apply ih s1 _ hst.1
      rcases he with he | he
      · exact Or.inl (fun e hm => he e (List.mem_cons_of_mem _ hm))
      · right
        simp only [List.length_cons] at he
        have := hst.2
        omega
    | exit c s1 => rw [hr] at hst; exact hst.1
    | fault s1 => rw [hr] at hst; exact hst.1

/-- C8: a run from the initial state ends with `exit(EXIT_SUCCESS)` only in a
state with `inputdone` set, `unconfirmed = 0` and a `read` of the command
source that returned 0 in its log; and a run that starts in a state with
`inputdone` set and ends with `exit(EXIT_SUCCESS)` has seen at least
`unconfirmed` further completions of the confirmation token.  The second part
holds for the runs in which the command source stays at its end (every
further `read` returns 0) and for all runs too short for the unsigned counter
to wrap around. -/
theorem drain_before_success (cfg : Config) :
    (∀ evs sf, run cfg init evs = Result.exit EXIT_SUCCESS sf →
      sf.inputdone = true ∧ sf.unconfirmed = 0 ∧
        Action.inputRead ReadResult.eof ∈ sf.trace) ∧
    (∀ s evs sf, s.inputdone = true →
      ((∀ ev ∈ evs, ev.input = ReadResult.eof) ∨ s.unconfirmed + evs.length < UINT_MOD) →
      run cfg s evs = Result.exit EXIT_SUCCESS sf →
      confirmCount s.trace + s.unconfirmed ≤ confirmCount sf.trace) := by
  constructor
  · intro evs sf h
    obtain ⟨h1, h2⟩ := run_exit_success h
    have h3 := run_state (step_eofSeen cfg) init evs (by simp [eofSeen, init])
    rw [h] at h3
    exact ⟨h1, h2, h3 h1⟩
  · intro s evs sf _ heof h
    obtain ⟨_, h2⟩ := run_exit_success h
    have h3 := run_drainBound cfg (confirmCount s.trace + s.unconfirmed) s evs heof
      (Nat.le_refl _)
    rw [h] at h3
    simp only [Result.state, drainBound] at h3
    omega

/-- The theorem `drain_before_success` applied to scenario C: end of input is
reached with two lines in flight, and success comes after two confirmations. -/
theorem drain_before_success_witness :
    drainingTwo.inputdone = true ∧ drainingTwo.unconfirmed = 2 ∧
    (∀ ev ∈ twoConfirms, ev.input = ReadResult.eof) ∧
    run (writeAhead 2) drainingTwo twoConfirms
      = Result.exit EXIT_SUCCESS (run (writeAhead 2) drainingTwo twoConfirms).state ∧
    confirmCount drainingTwo.trace + drainingTwo.unconfirmed ≤
      confirmCount (run (writeAhead 2) drainingTwo twoConfirms).state.trace :=
  ⟨by decide, by decide, by decide, rfl,
    (drain_before_success (writeAhead 2)).2 drainingTwo twoConfirms _
      (by decide) (Or.inl (by decide)) rfl⟩

/-! ## The closed loop in lockstep -/

theorem closedStep_byte (req : Nat) (s : State) (w : World) (b : Nat) (rest : List Nat)
    (hs : accumulating s) (hp : w.pending = []) (hi : w.input = b :: rest)
    (hb : b ≠ 13 ∧ b ≠ 10) (hg : s.gcpoint < GCODE_BUFSIZE) :
    ∃ s1, closedStep lockstep okDevice req (Sys.running s w)
        = Sys.running s1 { input := rest, pending := [], received := w.received } ∧
      accumulating s1 ∧ s1.gcpoint = s.gcpoint + 1 ∧
      s1.gcodebuf = s.gcodebuf.set s.gcpoint b ∧
      s1.trace = s.trace ++ [Action.inputRead (ReadResult.byte b)] := by
  obtain ⟨cp, sp, g, gc, u, idone, buf, ie, ire, sre, tr⟩ := s
  obtain ⟨inp, pend, rcv⟩ := w
  obtain ⟨h1, h2, h3, h4, h5, h6, h7⟩ := hs
  simp only at h1 h2 h3 h4 h5 h6 h7 hp hi hg
  subst h1 h2 h3 h4 h5 h6 hp hi
  obtain ⟨hb1, hb2⟩ := hb
  simp [closedStep, closedEvent, chunkSize, inputReady, step, pollPart, serialPart, inputPart,
    frame, store, lockstep, advance, POLLIN, POLLHUP, hb1, hb2, hg, readCount, writesOf,
    accumulating, h7]



theorem closedStep_blank (req : Nat) (s : State) (w : World) (t : Nat) (rest : List Nat)
    (hs : accumulating s) (hp : w.pending = []) (hi : w.input = t :: rest)
    (ht : t = 13 ∨ t = 10) (hg : s.gcpoint = 0) :
    ∃ s1, closedStep lockstep okDevice req (Sys.running s w)
        = Sys.running s1 { input := rest, pending := [], received := w.received } ∧
      accumulating s1 ∧ s1.gcpoint = 0 ∧
      s1.trace = s.trace ++ [Action.inputRead (ReadResult.byte t)] := by
  obtain ⟨cp, sp, g, gc, u, idone, buf, ie, ire, sre, tr⟩ := s
  obtain ⟨inp, pend, rcv⟩ := w
  obtain ⟨h1, h2, h3, h4, h5, h6, h7⟩ := hs
  simp only at h1 h2 h3 h4 h5 h6 h7 hp hi hg
  subst h1 h2 h3 h4 h5 h6 hp hi hg
  simp [closedStep, closedEvent, chunkSize, inputReady, step, pollPart, serialPart, inputPart,
    frame, store, lockstep, advance, POLLIN, POLLHUP, ht, readCount, writesOf,
    accumulating, h7]

theorem closedStep_send (req : Nat) (s : State) (w : World) (t : Nat) (rest : List Nat)
    (hs : accumulating s) (hp : w.pending = []) (hi : w.input = t :: rest)
    (ht : t = 13 ∨ t = 10) (hg : s.gcpoint ≠ 0)
    (hl : s.gcodebuf.take s.gcpoint ≠ CRLF) :
    ∃ s1, closedStep lockstep okDevice req (Sys.running s w)
        = Sys.running s1
          { input := rest, pending := token CONFIRM_MSG, received := w.received + 1 } ∧
      awaiting 0 s1 ∧
      s1.trace = s.trace ++ [Action.inputRead (ReadResult.byte t),
        Action.serialWrite (s.gcodebuf.take s.gcpoint), Action.serialWrite CRLF,
        Action.sentBlock] := by
  obtain ⟨cp, sp, g, gc, u, idone, buf, ie, ire, sre, tr⟩ := s
  obtain ⟨inp, pend, rcv⟩ := w
  obtain ⟨h1, h2, h3, h4, h5, h6, h7⟩ := hs
  simp only at h1 h2 h3 h4 h5 h6 h7 hp hi hg hl
  subst h1 h2 h3 h4 h5 h6 hp hi
  have hc : List.count CRLF [List.take g buf, CRLF] = 1 := by
    simp [List.count_cons, hl]
  simp [closedStep, closedEvent, chunkSize, inputReady, step, pollPart, serialPart, inputPart,
    frame, store, lockstep, advance, POLLIN, POLLHUP, ht, hg, readCount, writesOf,
    awaiting, h7, UINT_MOD, okDevice, hc]

theorem closedStep_eof (req : Nat) (s : State) (w : World)
    (hs : accumulating s) (hp : w.pending = []) (hi : w.input = []) :
    ∃ s1, closedStep lockstep okDevice req (Sys.running s w) = Sys.running s1 w ∧
      s1.inputdone = true ∧ s1.unconfirmed = 0 ∧
      s1.trace = s.trace ++ [Action.inputRead ReadResult.eof] := by
  obtain ⟨cp, sp, g, gc, u, idone, buf, ie, ire, sre, tr⟩ := s
  obtain ⟨inp, pend, rcv⟩ := w
  obtain ⟨h1, h2, h3, h4, h5, h6, h7⟩ := hs
  simp only at h1 h2 h3 h4 h5 h6 h7 hp hi
  subst h1 h2 h3 h4 h5 h6 hp hi
  simp [closedStep, closedEvent, chunkSize, inputReady, step, pollPart, serialPart, inputPart,
    advance, POLLIN, POLLHUP, readCount, writesOf]

theorem closedStep_exit (cfg : Config) (dev : Device) (req : Nat) (s : State) (w : World)
    (h1 : s.inputdone = true) (h2 : s.unconfirmed = 0) :
    closedStep cfg dev req (Sys.running s w) = Sys.stopped (Result.exit EXIT_SUCCESS s) := by
  simp [closedStep, step, h1, h2]



theorem strlen_confirm_lit : strlen [111, 107, 13, 10, 0] = 4 := by decide

theorem strlen_start_lit : strlen [115, 116, 97, 114, 116, 13, 10, 0] = 7 := by decide

theorem chunkSize_awaiting (req j : Nat) (s : State) (w : World) (hs : awaiting j s)
    (hj : j ≤ 3) (hp : w.pending = (token CONFIRM_MSG).drop j) :
    1 ≤ chunkSize s w req ∧ chunkSize s w req ≤ 4 - j := by
  obtain ⟨_, _, _, _, h5, _, _⟩ := hs
  have htok : token CONFIRM_MSG = [111, 107, 13, 10] := by decide
  have hlen : w.pending.length = 4 - j := by
    rw [hp, htok]; simp
  unfold chunkSize inputReady
  simp only [h5, hlen, SERIAL_BUFSIZE]
  simp
  omega

theorem closedStep_confirm (req j : Nat) (s : State) (w : World) (hs : awaiting j s)
    (hj : j ≤ 3) (hp : w.pending = (token CONFIRM_MSG).drop j) :
    ∃ s1 w1, closedStep lockstep okDevice req (Sys.running s w) = Sys.running s1 w1 ∧
      w1.input = w.input ∧ w1.received = w.received ∧
      ((j < j + chunkSize s w req ∧ j + chunkSize s w req ≤ 3 ∧
          awaiting (j + chunkSize s w req) s1 ∧
          w1.pending = (token CONFIRM_MSG).drop (j + chunkSize s w req) ∧
          s1.trace = s.trace ∧ s1.gcpoint = s.gcpoint ∧ s1.gcodebuf = s.gcodebuf) ∨
       (accumulating s1 ∧ s1.gcpoint = 0 ∧ w1.pending = [] ∧
          s1.trace = s.trace ++ [Action.confirmed true])) := by
  obtain ⟨k1, k2⟩ := chunkSize_awaiting req j s w hs hj hp
  obtain ⟨cp, sp, g, gc, u, idone, buf, ie, ire, sre, tr⟩ := s
  obtain ⟨inp, pend, rcv⟩ := w
  obtain ⟨h1, h2, h3, h4, h5, h6, h7⟩ := hs
  simp only at h1 h2 h3 h4 h5 h6 h7 hp
  subst h1 h2 h3 h4 h5 h6 hp
  simp only [closedStep, closedEvent]
  generalize chunkSize _ _ req = k at k1 k2 ⊢
  have hcases : (cp = 0 ∧ (k = 1 ∨ k = 2 ∨ k = 3 ∨ k = 4)) ∨ (cp = 1 ∧ (k = 1 ∨ k = 2 ∨ k = 3)) ∨
      (cp = 2 ∧ (k = 1 ∨ k = 2)) ∨ (cp = 3 ∧ k = 1) := by omega
  have htok : token CONFIRM_MSG = [111, 107, 13, 10] := by decide
  rw [htok]
  rcases hcases with ⟨rfl, rfl | rfl | rfl | rfl⟩ | ⟨rfl, rfl | rfl | rfl⟩ | ⟨rfl, rfl | rfl⟩ |
      ⟨rfl, rfl⟩ <;>
    simp [inputReady, step, pollPart, serialPart, inputPart, scanLoop, scanByte, scanConfirm,
      scanStart, strlen_confirm_lit, strlen_start_lit, CONFIRM_MSG, START_MSG,
      advance, POLLIN, POLLHUP, readCount, writesOf, awaiting, accumulating, h7] <;>
    exact ⟨_, _, ⟨rfl, rfl⟩, by simp [h7]⟩



theorem closedRun_add (cfg : Config) (dev : Device) (n m : Nat) (sched : Nat → Nat)
    (sys : Sys) :
    closedRun cfg dev sched (n + m) sys
      = closedRun cfg dev (fun i => sched (i + n)) m (closedRun cfg dev sched n sys) := by
  induction n generalizing sched sys with
  | zero => simp [closedRun]
  | succ n ih =>
    have e : n + 1 + m = (n + m) + 1 := by omega
    rw [e]
    simp only [closedRun]
    rw [ih]
    have e2 : (fun i => (fun i => sched (i + 1)) (i + n)) = (fun i => sched (i + (n + 1))) := by
      funext i
      show sched (i + n + 1) = sched (i + (n + 1))
      rfl
    rw [e2]

theorem eventually_now {a : Sys} {P : Sys → Prop} (h : P a) : eventually a P :=
  fun _ => ⟨0, h⟩

theorem eventually_step {a : Sys} {P : Sys → Prop}
    (h : ∀ req, eventually (closedStep lockstep okDevice req a) P) : eventually a P := by
  intro sched
  obtain ⟨n, hn⟩ := h (sched 0) (fun i => sched (i + 1))
  exact ⟨n + 1, hn⟩

theorem eventually_trans {a : Sys} {P Q : Sys → Prop} (h1 : eventually a P)
    (h2 : ∀ b, P b → eventually b Q) : eventually a Q := by
  intro sched
  obtain ⟨n, hn⟩ := h1 sched
  obtain ⟨m, hm⟩ := h2 _ hn (fun i => sched (i + n))
  refine ⟨n + m, ?_⟩
  rw [closedRun_add]
  exact hm

theorem take_set_succ (l : List Nat) (g b : Nat) (h : g < l.length) :
    (l.set g b).take (g + 1) = l.take g ++ [b] := by
  induction l generalizing g with
  | nil => simp at h
  | cons x xs ih =>
    cases g with
    | zero => simp
    | succ g =>
      simp only [List.set_cons_succ, List.take_succ_cons, List.cons_append]
      rw [ih g (by simpa using h)]

/-- Reading the bytes of a line fills the buffer with them. -/
theorem line_phase (l : List Nat) (s : State) (w : World) (rest : List Nat)
    (hs : accumulating s) (hp : w.pending = []) (hi : w.input = l ++ rest)
    (hl : ∀ b ∈ l, b ≠ 13 ∧ b ≠ 10) (hg : s.gcpoint + l.length ≤ GCODE_BUFSIZE) :
    eventually (Sys.running s w) (fun sys => ∃ s1, sys =
        Sys.running s1 { input := rest, pending := [], received := w.received } ∧
      accumulating s1 ∧ s1.gcpoint = s.gcpoint + l.length ∧
      s1.gcodebuf.take s1.gcpoint = s.gcodebuf.take s.gcpoint ++ l ∧
      s1.trace = s.trace ++ l.map (fun b => Action.inputRead (ReadResult.byte b))) := by
  induction l generalizing s w with
  | nil =>
    apply eventually_now
    refine ⟨s, ?_, hs, by simp, by simp, by simp⟩
    obtain ⟨inp, pend, rcv⟩ := w
    simp only at hp hi
    simp at hi
    subst hp hi
    rfl
  | cons b l ih =>
    apply eventually_step
    intro req
    simp only [List.length_cons] at hg
    obtain ⟨s1, e1, a1, g1, b1, t1⟩ := closedStep_byte req s w b (l ++ rest) hs hp hi
      (hl b (List.mem_cons_self _ _)) (by omega)
    rw [e1]
    have ih1 := ih s1 { input := l ++ rest, pending := [], received := w.received } a1 rfl rfl
      (fun x hx => hl x (List.mem_cons_of_mem _ hx)) (by omega)
    apply eventually_trans ih1
    rintro sys ⟨s2, e2, a2, g2, b2, t2⟩
    apply eventually_now
    refine ⟨s2, e2, a2, by rw [g2, g1]; simp; omega, ?_, by rw [t2, t1]; simp⟩
    rw [b2, g1, b1, take_set_succ _ _ _ (by rw [hs.2.2.2.2.2.2]; omega)]
    simp



/-- With one line in flight the loop reads the confirmation, in whatever
chunks it arrives, and nothing else. -/
theorem confirm_phase (j : Nat) (s : State) (w : World) (hs : awaiting j s) (hj : j ≤ 3)
    (hp : w.pending = (token CONFIRM_MSG).drop j) :
    eventually (Sys.running s w) (fun sys => ∃ s1, sys =
        Sys.running s1 { input := w.input, pending := [], received := w.received } ∧
      accumulating s1 ∧ s1.gcpoint = 0 ∧
      s1.trace = s.trace ++ [Action.confirmed true]) := by
  generalize hm : 3 - j = m
  induction m using Nat.strong_induction_on generalizing j s w with
  | _ m ih =>
    apply eventually_step
    intro req
    obtain ⟨s1, w1, e1, i1, r1, hcase⟩ := closedStep_confirm req j s w hs hj hp
    rw [e1]
    rcases hcase with ⟨c1, c2, c3, c4, c5, _, _⟩ | ⟨c1, c2, c3, c4⟩
    · have := ih (3 - (j + chunkSize s w req)) (by omega) (j + chunkSize s w req) s1 w1
        c3 c2 c4 rfl
      rw [i1, r1, c5] at this
      exact this
    · apply eventually_now
      refine ⟨s1, ?_, c1, c2, c4⟩
      obtain ⟨inp, pend, rcv⟩ := w1
      simp only at i1 r1 c3
      subst i1 r1 c3
      rfl

/-- The closed loop in lockstep over a whole command file. -/
theorem file_phase (lines : List (List Nat × Nat)) (s : State) (w : World)
    (hs : accumulating s) (hg : s.gcpoint = 0) (hp : w.pending = [])
    (hi : w.input = inputOf lines) (hwf : ∀ p ∈ lines, wellFormedLine p) :
    eventually (Sys.running s w) (fun sys => ∃ sf,
      sys = Sys.stopped (Result.exit EXIT_SUCCESS sf) ∧
      sf.trace = s.trace ++ fileTrace lines) := by
  induction lines generalizing s w with
  | nil =>
    apply eventually_step
    intro req
    obtain ⟨s1, e1, d1, u1, t1⟩ := closedStep_eof req s w hs hp (by simpa [inputOf] using hi)
    rw [e1]
    apply eventually_step
    intro req2
    rw [closedStep_exit _ _ _ _ _ d1 u1]
    apply eventually_now
    exact ⟨s1, rfl, by simp [t1, fileTrace]⟩
  | cons p lines ih =>
    obtain ⟨l, t⟩ := p
    obtain ⟨ht, hlen, hfree⟩ := hwf (l, t) (List.mem_cons_self _ _)
    simp only at ht hlen hfree
    have hwf2 : ∀ q ∈ lines, wellFormedLine q := fun q hq => hwf q (List.mem_cons_of_mem _ hq)
    have hin : w.input = l ++ (t :: inputOf lines) := by
      rw [hi]; simp [inputOf]
    by_cases hl : l = []
    · subst hl
      apply eventually_step
      intro req
      obtain ⟨s1, e1, a1, g1, t1⟩ := closedStep_blank req s w t (inputOf lines) hs hp
        (by simpa using hin) ht hg
      rw [e1]
      apply eventually_trans (ih s1 _ a1 g1 rfl rfl hwf2)
      rintro sys ⟨sf, e, tr⟩
      apply eventually_now
      exact ⟨sf, e, by rw [tr, t1]; simp [fileTrace, lineTrace]⟩
    · apply eventually_trans (line_phase l s w (t :: inputOf lines) hs hp hin hfree
        (by rw [hg]; omega))
      rintro sys ⟨s1, e1, a1, g1, b1, t1⟩
      subst e1
      rw [hg] at b1 g1
      simp only [List.take_zero, List.nil_append, Nat.zero_add] at b1 g1
      have hne : s1.gcpoint ≠ 0 := by
        rw [g1]
        exact fun h => hl (List.length_eq_zero.mp h)
      have hcr : s1.gcodebuf.take s1.gcpoint ≠ CRLF := by
        rw [b1]
        intro h
        have := hfree 13 (by rw [h]; simp [CRLF])
        exact this.1 rfl
      apply eventually_step
      intro req
      obtain ⟨s2, e2, a2, t2⟩ := closedStep_send req s1
        { input := t :: inputOf lines, pending := [], received := w.received } t (inputOf lines)
        a1 rfl rfl ht hne hcr
      rw [e2]
      apply eventually_trans (confirm_phase 0 s2 _ a2 (by omega) rfl)
      rintro sys ⟨s3, e3, a3, g3, t3⟩
      subst e3
      apply eventually_trans (ih s3 _ a3 g3 rfl rfl hwf2)
      rintro sys ⟨sf, e, tr⟩
      apply eventually_now
      refine ⟨sf, e, ?_⟩
      rw [tr, t3, t2, t1, b1]
      simp [fileTrace, lineTrace, hl]

theorem writesOf_append (a b : List Action) : writesOf (a ++ b) = writesOf a ++ writesOf b := by
  simp [writesOf]

theorem handshake_append (a b : List Action) :
    handshake (a ++ b) = handshake a ++ handshake b := by
  simp [handshake]

theorem writesOf_reads (l : List Nat) :
    writesOf (l.map (fun b => Action.inputRead (ReadResult.byte b))) = [] := by
  induction l with
  | nil => rfl
  | cons b l ih => simp [writesOf]

theorem handshake_reads (l : List Nat) :
    handshake (l.map (fun b => Action.inputRead (ReadResult.byte b))) = [] := by
  induction l with
  | nil => rfl
  | cons b l ih => simp [handshake]

theorem writesOf_fileTrace (lines : List (List Nat × Nat)) :
    writesOf (fileTrace lines) = expectedWrites lines := by
  induction lines with
  | nil => simp [fileTrace, expectedWrites, writesOf]
  | cons p lines ih =>
    obtain ⟨l, t⟩ := p
    simp only [fileTrace, List.map_cons, List.flatten_cons, List.append_assoc,
      writesOf_append] at ih ⊢
    rw [ih]
    by_cases hl : l = []
    · subst hl
      simp [lineTrace, expectedWrites, writesOf]
    · simp [lineTrace, expectedWrites, writesOf_append, writesOf_reads, hl, List.filter_cons]
      simp [writesOf]

theorem handshake_fileTrace (lines : List (List Nat × Nat)) :
    handshake (fileTrace lines) = expectedHandshake lines := by
  induction lines with
  | nil => simp [fileTrace, expectedHandshake, handshake]
  | cons p lines ih =>
    obtain ⟨l, t⟩ := p
    simp only [fileTrace, List.map_cons, List.flatten_cons, List.append_assoc,
      handshake_append] at ih ⊢
    rw [ih]
    by_cases hl : l = []
    · subst hl
      simp [lineTrace, expectedHandshake, handshake]
    · simp [lineTrace, expectedHandshake, handshake_append, handshake_reads, hl,
        List.filter_cons]
      simp [handshake]

/-- C1: with `max_unconfirmed = 0` and compression off, for every command file
made of lines of at most `GCODE_BUFSIZE` bytes, each ended by CR or LF, a
device that sends `"ok\r\n"` after each line it receives, and every schedule
of the chunks in which `serial_read` returns the device's bytes, the loop
ends after finitely many iterations through `exit(EXIT_SUCCESS)`; the calls
of `serial_write` are exactly the non-empty lines in order, each followed by
`"\r\n"`; and between the writes of one line and those of the next the
confirmation token has completed. -/
theorem lockstep_end_to_end (lines : List (List Nat × Nat))
    (hwf : ∀ p ∈ lines, wellFormedLine p) (sched : Nat → Nat) :
    ∃ n sf, closedRun lockstep okDevice sched n (Sys.running init (startWorld (inputOf lines)))
        = Sys.stopped (Result.exit EXIT_SUCCESS sf) ∧
      writesOf sf.trace = expectedWrites lines ∧
      handshake sf.trace = expectedHandshake lines := by
  have h := file_phase lines init (startWorld (inputOf lines))
    ⟨rfl, rfl, rfl, rfl, rfl, rfl, by simp [init]⟩ rfl rfl rfl hwf sched
  obtain ⟨n, sf, e, tr⟩ := h
  refine ⟨n, sf, e, ?_, ?_⟩
  · rw [tr]
    simp [init, writesOf_fileTrace]
  · rw [tr]
    simp [init, handshake_fileTrace]



/-- The theorem `lockstep_end_to_end` applied to scenario A, the command file
`"G1 X10\n" "G1 X20\n"`, with the device's bytes arriving one at a time. -/
theorem lockstep_end_to_end_witness :
    (∀ p ∈ scenarioLines, wellFormedLine p) ∧
    inputOf scenarioLines = bytes "G1 X10\nG1 X20\n" ∧
    expectedWrites scenarioLines = [bytes "G1 X10", CRLF, bytes "G1 X20", CRLF] ∧
    ∃ n sf, closedRun lockstep okDevice (fun _ => 1) n
        (Sys.running init (startWorld (inputOf scenarioLines)))
        = Sys.stopped (Result.exit EXIT_SUCCESS sf) ∧
      writesOf sf.trace = expectedWrites scenarioLines ∧
      handshake sf.trace = expectedHandshake scenarioLines :=
  ⟨by decide, by decide, by decide,
    lockstep_end_to_end scenarioLines (by decide) (fun _ => 1)⟩

/-! ## The cursors of the scanner -/

/-- C16 fails for `startpoint`: after the reply `"start\r\n"` the cursor is 7,
the length of the token, and is not reset (the confirmation branch resets
`confpoint` in line 371; the reset branch has no such line); a NUL byte
then matches `START_MSG[7]` and moves it to 8, beyond the token's length, and
the comparison for the next byte reads `START_MSG[8]`, outside the string
literal.  A second `"start\r\n"` that directly follows the first is not
seen: with a command in flight the two tokens cause one retransmission. -/
theorem startpoint_not_reset :
    (scanLoop init (token START_MSG)).state.startpoint = strlen START_MSG ∧
    (scanLoop init (token START_MSG ++ [0])).state.startpoint = strlen START_MSG + 1 ∧
    START_MSG[strlen START_MSG + 1]? = none ∧
    (match scanLoop init (token START_MSG ++ [0, 0]) with
      | Result.fault s => s.startpoint
      | _ => 0) = strlen START_MSG + 1 ∧
    (scanLoop init (token CONFIRM_MSG)).state.confpoint = 0 ∧
    writesOf (scanLoop oneInFlight (token START_MSG ++ token START_MSG)).state.trace
      = [[], CRLF] := by
  decide

theorem scanByte_cursorsApart {s s2 : State} {b : Nat} (h : scanByte s b = Result.cont s2)
    (hc : s.confpoint ≤ 3) (ha : cursorsApart s) : cursorsApart s2 := by
  obtain ⟨h1, h2, h3, _⟩ := scanByte_cont h hc
  unfold cursorsApart at *
  intro hne
  rw [h3]
  rw [h2] at hne
  have hcc : s.confpoint = 0 ∨ s.confpoint = 1 ∨ s.confpoint = 2 ∨ s.confpoint = 3 := by omega
  have hss : s.startpoint = 0 ∨ s.startpoint = 1 ∨ s.startpoint = 2 ∨ s.startpoint = 3 ∨
      s.startpoint = 4 ∨ s.startpoint = 5 ∨ s.startpoint = 6 ∨ s.startpoint = 7 := by omega
  rcases hcc with c | c | c | c <;> rw [c] at hne <;>
    simp [CONFIRM_MSG] at hne <;>
    (try rw [ha (by omega)]) <;>
    subst hne <;>
    rcases hss with e | e | e | e | e | e | e | e <;> simp [e, START_MSG]

theorem scanLoop_cursorsApart {s s2 : State} {bs : List Nat}
    (h : scanLoop s bs = Result.cont s2) (hc : s.confpoint ≤ 3) (ha : cursorsApart s) :
    cursorsApart s2 := by
  induction bs generalizing s with
  | nil => simp [scanLoop] at h; subst h; exact ha
  | cons b bs ih =>
    simp only [scanLoop] at h
    obtain ⟨s1, h1, h2⟩ := andThen_eq_cont h
    exact ih h2 (scanByte_confpoint_le h1 hc) (scanByte_cursorsApart h1 hc ha)

/-- C17: for every reply byte sequence `pre` scanned from both cursors at 0 and
every next byte `b`, the confirmation token and the reset token do not both
complete on `b`. -/
theorem completions_exclusive (s0 sp : State) (pre : List Nat) (b : Nat)
    (hc : s0.confpoint = 0) (hs : s0.startpoint = 0)
    (hrun : scanLoop s0 pre = Result.cont sp) :
    ¬ (completesConfirm sp b ∧ completesStart sp b) := by
  have hle : sp.confpoint ≤ 3 := scanLoop_confpoint_le hrun (by omega)
  have hap : cursorsApart sp := scanLoop_cursorsApart hrun (by omega) (fun _ => hs)
  rintro ⟨h1, h2⟩
  obtain ⟨c3, rfl⟩ := (completesConfirm_iff sp b hle).1 h1
  have hs0 : sp.startpoint = 0 := hap (by omega)
  unfold completesStart at h2
  split at h2
  · rename_i s1 hs1
    obtain ⟨_, _, a3, _⟩ := scanByte_cont hs1 hle
    rw [a3, hs0] at h2
    simp [START_MSG, strlen_start_lit] at h2
  · exact h2



/-- The theorem `completions_exclusive` applied to the reply `"ok\r\n"`: its
last byte completes the confirmation token and not the reset token. -/
theorem completions_exclusive_witness :
    init.confpoint = 0 ∧ init.startpoint = 0 ∧
    scanLoop init [111, 107, 13] = Result.cont (scanLoop init [111, 107, 13]).state ∧
    completesConfirm (scanLoop init [111, 107, 13]).state 10 ∧
    ¬ (completesConfirm (scanLoop init [111, 107, 13]).state 10 ∧
      completesStart (scanLoop init [111, 107, 13]).state 10) :=
  ⟨rfl, rfl, rfl, by decide, completions_exclusive init _ [111, 107, 13] 10 rfl rfl rfl⟩

/-! ## Confirmations and occurrences of `"ok\r\n"` -/

theorem scanByte_confirmCount (s : State) (b : Nat) (hc : s.confpoint ≤ 3) :
    confirmCount (scanByte s b).state.trace =
      confirmCount s.trace + (if s.confpoint = 3 ∧ b = 10 then 1 else 0) := by
  obtain ⟨s1, h1, _, _, hcnt⟩ := scanConfirm_cursor s b hc
  have h2 := (scanStart_trace_count s1 b).1
  unfold scanByte
  rw [h1]
  simp only [andThen_cont]
  rw [h2, hcnt]
  congr 1
  by_cases h3 : s.confpoint = 3
  · rw [h3]
    simp [CONFIRM_MSG, eq_comm]
  · simp [h3]

/-- A confirmation cursor inside the token was reached without a completion. -/
theorem confpoint_back_count {s0 sp : State} {pre : List Nat} {k : Nat}
    (h0 : s0.confpoint = 0) (h : scanLoop s0 pre = Result.cont sp)
    (hk : sp.confpoint = k + 1) :
    ∃ q sq b, pre = q ++ [b] ∧ CONFIRM_MSG[k]? = some b ∧
      scanLoop s0 q = Result.cont sq ∧ sq.confpoint = k ∧
      confirmCount sq.trace = confirmCount sp.trace := by
  obtain ⟨q, sq, b, e, t, r, c⟩ := confpoint_back h0 h hk
  subst e
  obtain ⟨sq1, r1, hb⟩ := scanLoop_snoc_cont h
  rw [r] at r1
  simp at r1
  subst r1
  have hle := scanLoop_confpoint_le r (by omega : s0.confpoint ≤ 3)
  have hle2 := scanLoop_confpoint_le h (by omega : s0.confpoint ≤ 3)
  have hcnt := scanByte_confirmCount sq b hle
  rw [hb] at hcnt
  simp only [Result.state] at hcnt
  refine ⟨q, sq, b, rfl, t, r, c, ?_⟩
  rw [hcnt, if_neg]
  · omega
  · intro hh
    omega

theorem completes_occurs {s0 sp : State} {pre : List Nat} {b : Nat}
    (h0 : s0.confpoint = 0) (hrun : scanLoop s0 pre = Result.cont sp)
    (hf : completesConfirm sp b) :
    ∃ q sq, pre ++ [b] = q ++ token CONFIRM_MSG ∧ scanLoop s0 q = Result.cont sq ∧
      sq.confpoint = 0 ∧ confirmCount sq.trace = confirmCount sp.trace := by
  have hle : sp.confpoint ≤ 3 := scanLoop_confpoint_le hrun (by omega)
  obtain ⟨h3, rfl⟩ := (completesConfirm_iff sp b hle).1 hf
  obtain ⟨q3, s3, b3, e3, t3, r3, c3, n3⟩ := confpoint_back_count h0 hrun h3
  obtain ⟨q2, s2, b2, e2, t2, r2, c2, n2⟩ := confpoint_back_count h0 r3 c3
  obtain ⟨q1, s1, b1, e1, t1, r1, c1, n1⟩ := confpoint_back_count h0 r2 c2
  simp [CONFIRM_MSG] at t3 t2 t1
  subst t3 t2 t1 e3 e2 e1
  have htc : token CONFIRM_MSG = [111, 107, 13, 10] := by decide
  exact ⟨q1, s1, by simp [htc], r1, c1, by omega⟩

theorem occursAt_snoc_of_le (tok pre : List Nat) (b n : Nat) (hn : n ≤ pre.length) :
    occursAt tok (pre ++ [b]) n ↔ occursAt tok pre n := by
  unfold occursAt
  rw [List.take_append_of_le_length hn]
  simp
  omega

theorem occurrences_snoc (tok pre : List Nat) (b : Nat) :
    occurrences tok (pre ++ [b]) =
      occurrences tok pre + (if occursAt tok (pre ++ [b]) (pre.length + 1) then 1 else 0) := by
  unfold occurrences
  have hl : (pre ++ [b]).length + 1 = (pre.length + 1) + 1 := by simp
  rw [hl, List.range_succ, List.filter_append, List.length_append]
  congr 1
  · congr 1
    apply List.filter_congr
    intro n hn
    have : n ≤ pre.length := by
      have := List.mem_range.1 hn
      omega
    simp [occursAt_snoc_of_le tok pre b n this]
  · by_cases h : occursAt tok (pre ++ [b]) (pre.length + 1) <;> simp [h]

theorem occursAt_of_append (q tok : List Nat) : occursAt tok (q ++ tok) (q ++ tok).length := by
  unfold occursAt
  refine ⟨by simp, Nat.le_refl _, ?_⟩
  rw [List.take_length]
  simp



theorem scanByte_confpoint_state (s : State) (b : Nat) (hc : s.confpoint ≤ 3) :
    (scanByte s b).state.confpoint ≤ 3 := by
  obtain ⟨s1, h1, _, hcp, _⟩ := scanConfirm_cursor s b hc
  have h2 := (scanStart_trace_count s1 b).2
  unfold scanByte
  rw [h1]
  simp only [andThen_cont]
  rw [h2, hcp]
  split_ifs <;> omega

theorem scanByte_decrementsBound (tr0 : List Action) (s : State) (b : Nat)
    (h : decrementsBound tr0 s) : decrementsBound tr0 (scanByte s b).state := by
  unfold scanByte
  apply andThen_state
  · unfold decrementsBound at *
    unfold scanConfirm
    dsimp only
    split
    · exact h
    · split_ifs with h1 h2 h3
      · have hd : decide (0 < s.unconfirmed) = true := by simpa using h3
        simp [Result.state, countedConfirms, confirmCount, List.count_append, hd] at *
        omega
      · have hd : decide (0 < s.unconfirmed) = false := by simpa using h3
        simp [Result.state, countedConfirms, confirmCount, List.count_append, hd] at *
        omega
      · exact h
      · exact h
  · intro s1 h1
    unfold decrementsBound at *
    unfold scanStart
    dsimp only
    split
    · exact h1
    · split_ifs <;>
        simp [Result.state, countedConfirms, confirmCount, List.count_append] at * <;> omega

theorem scanLoop_snoc_state (s0 : State) (pre : List Nat) (b : Nat) :
    (scanLoop s0 (pre ++ [b])).state =
      (match scanLoop s0 pre with
        | Result.cont sp => (scanByte sp b).state
        | r => r.state) := by
  rw [scanLoop_append]
  cases h : scanLoop s0 pre with
  | cont sp =>
    simp only [andThen_cont, scanLoop]
    cases h2 : scanByte sp b <;> rfl
  | exit c s1 => rfl
  | fault s1 => rfl

theorem scanLoop_confirmCount_le (s0 : State) (bs : List Nat) (h0 : s0.confpoint = 0) :
    confirmCount (scanLoop s0 bs).state.trace ≤
      confirmCount s0.trace + occurrences (token CONFIRM_MSG) bs := by
  induction bs using List.reverseRecOn with
  | nil => simp [scanLoop, Result.state]
  | append_singleton pre b ih =>
    rw [scanLoop_snoc_state, occurrences_snoc]
    cases h : scanLoop s0 pre with
    | cont sp =>
      rw [h] at ih
      simp only [Result.state] at ih
      have hle : sp.confpoint ≤ 3 := scanLoop_confpoint_le h (by omega)
      show confirmCount (scanByte sp b).state.trace ≤ _
      rw [scanByte_confirmCount sp b hle]
      by_cases hf : sp.confpoint = 3 ∧ b = 10
      · have hcomp : completesConfirm sp b := (completesConfirm_iff sp b hle).2 hf
        obtain ⟨q, sq, e, _, _, _⟩ := completes_occurs h0 h hcomp
        have hocc : occursAt (token CONFIRM_MSG) (pre ++ [b]) (pre.length + 1) := by
          have := occursAt_of_append q (token CONFIRM_MSG)
          rw [← e] at this
          simpa using this
        rw [if_pos hf, if_pos hocc]
        omega
      · rw [if_neg hf]
        omega
    | exit c s1 =>
      rw [h] at ih
      show confirmCount (Result.exit c s1).state.trace ≤ _
      omega
    | fault s1 =>
      rw [h] at ih
      show confirmCount (Result.fault s1).state.trace ≤ _
      omega

theorem occursAt_confirm_bytes {bs : List Nat} {n : Nat}
    (h : occursAt (token CONFIRM_MSG) bs n) :
    4 ≤ n ∧ bs[n - 4]? = some 111 ∧ bs[n - 3]? = some 107 ∧ bs[n - 2]? = some 13 ∧
      bs[n - 1]? = some 10 := by
  have htc : token CONFIRM_MSG = [111, 107, 13, 10] := by decide
  unfold occursAt at h
  rw [htc] at h
  obtain ⟨h1, h2, h3⟩ := h
  simp only [List.length_cons, List.length_nil] at h1 h3
  have e0 := congrArg (fun l => l[0]?) h3
  have e1 := congrArg (fun l => l[1]?) h3
  have e2 := congrArg (fun l => l[2]?) h3
  have e3 := congrArg (fun l => l[3]?) h3
  simp only [List.getElem?_drop, List.getElem?_take] at e0 e1 e2 e3
  refine ⟨h1, ?_, ?_, ?_, ?_⟩
  · rw [if_pos (by omega)] at e0
    simpa using e0
  · rw [if_pos (by omega)] at e1
    have : n - 4 + 1 = n - 3 := by omega
    rw [this] at e1
    simpa using e1
  · rw [if_pos (by omega)] at e2
    have : n - 4 + 2 = n - 2 := by omega
    rw [this] at e2
    simpa using e2
  · rw [if_pos (by omega)] at e3
    have : n - 4 + 3 = n - 1 := by omega
    rw [this] at e3
    simpa using e3

theorem confirm_occurrences_disjoint (bs : List Nat) (n m : Nat)
    (hn : occursAt (token CONFIRM_MSG) bs n) (hm : occursAt (token CONFIRM_MSG) bs m)
    (hlt : n < m) : n + (token CONFIRM_MSG).length ≤ m := by
  have htc : (token CONFIRM_MSG).length = 4 := by decide
  rw [htc]
  obtain ⟨a0, _, a2, a3, a4⟩ := occursAt_confirm_bytes hn
  obtain ⟨b0, b1, _, _, _⟩ := occursAt_confirm_bytes hm
  by_contra hcon
  have hcase : m = n + 1 ∨ m = n + 2 ∨ m = n + 3 := by omega
  rcases hcase with e | e | e <;> subst e
  · have : n + 1 - 4 = n - 3 := by omega
    rw [this, a2] at b1
    simp at b1
  · have : n + 2 - 4 = n - 2 := by omega
    rw [this, a3] at b1
    simp at b1
  · have : n + 3 - 4 = n - 1 := by omega
    rw [this, a4] at b1
    simp at b1



/-- C18: for every reply byte sequence `bs` scanned from `confpoint = 0`:
whenever the confirmation branch fires on a byte, the four bytes ending there
are exactly `"ok\r\n"`, they start where the cursor was 0, and no other
confirmation fired inside them; the number of decrements of `unconfirmed`
made while scanning `bs` is at most the number of occurrences of `"ok\r\n"` in
`bs`, and two occurrences never overlap; and `confpoint` is at most 3 when the
scan stops. -/
theorem no_false_acknowledgement (s0 : State) (bs : List Nat) (h0 : s0.confpoint = 0) :
    (∀ pre b rest sp, bs = pre ++ b :: rest → scanLoop s0 pre = Result.cont sp →
      completesConfirm sp b →
      ∃ q sq, pre ++ [b] = q ++ token CONFIRM_MSG ∧ scanLoop s0 q = Result.cont sq ∧
        sq.confpoint = 0 ∧ confirmCount sq.trace = confirmCount sp.trace) ∧
    countedConfirms (scanLoop s0 bs).state.trace ≤
      countedConfirms s0.trace + occurrences (token CONFIRM_MSG) bs ∧
    (∀ n m, occursAt (token CONFIRM_MSG) bs n → occursAt (token CONFIRM_MSG) bs m → n < m →
      n + (token CONFIRM_MSG).length ≤ m) ∧
    (scanLoop s0 bs).state.confpoint ≤ 3 := by
  refine ⟨?_, ?_, ?_, ?_⟩
  · intro pre b rest sp _ hrun hf
    exact completes_occurs h0 hrun hf
  · have h1 := scanLoop_confirmCount_le s0 bs h0
    have h2 := scanLoop_state (P := decrementsBound s0.trace)
      (scanByte_decrementsBound s0.trace) s0 bs
      (by unfold decrementsBound; omega)
    unfold decrementsBound at h2
    omega
  · exact confirm_occurrences_disjoint bs
  · exact scanLoop_state (P := fun s => s.confpoint ≤ 3) scanByte_confpoint_state s0 bs
      (by omega)

/-- The theorem `no_false_acknowledgement` applied to the reply
`"ook\r\nok\r\n"` scanned with one command in flight: the reply holds two
occurrences of `"ok\r\n"`, and the counter is decremented once. -/
theorem no_false_acknowledgement_witness :
    oneInFlight.confpoint = 0 ∧
    occurrences (token CONFIRM_MSG) falseStartReply = 2 ∧
    countedConfirms (scanLoop oneInFlight falseStartReply).state.trace = 1 ∧
    ((∀ pre b rest sp, falseStartReply = pre ++ b :: rest →
      scanLoop oneInFlight pre = Result.cont sp → completesConfirm sp b →
      ∃ q sq, pre ++ [b] = q ++ token CONFIRM_MSG ∧ scanLoop oneInFlight q = Result.cont sq ∧
        sq.confpoint = 0 ∧ confirmCount sq.trace = confirmCount sp.trace) ∧
    countedConfirms (scanLoop oneInFlight falseStartReply).state.trace ≤
      countedConfirms oneInFlight.trace + occurrences (token CONFIRM_MSG) falseStartReply ∧
    (∀ n m, occursAt (token CONFIRM_MSG) falseStartReply n →
      occursAt (token CONFIRM_MSG) falseStartReply m → n < m →
      n + (token CONFIRM_MSG).length ≤ m) ∧
    (scanLoop oneInFlight falseStartReply).state.confpoint ≤ 3) :=
  ⟨rfl, by decide, by decide, no_false_acknowledgement oneInFlight falseStartReply rfl⟩

/-! ## Protocol anomalies -/

theorem scanConfirm_quiet (s : State) (b : Nat) (hle : s.confpoint ≤ 3)
    (hnc : ¬ (s.confpoint = 3 ∧ b = 10)) :
    ∃ c, scanConfirm s b = Result.cont { s with confpoint := c } := by
  have hcc : s.confpoint = 0 ∨ s.confpoint = 1 ∨ s.confpoint = 2 ∨ s.confpoint = 3 := by omega
  unfold scanConfirm
  dsimp only
  rcases hcc with c | c | c | c <;> rw [c] at hnc ⊢ <;>
    simp [CONFIRM_MSG, strlen_confirm_lit] at hnc ⊢ <;>
    split_ifs <;> exact ⟨_, rfl⟩

theorem scanStart_quiet {s s1 : State} {b : Nat} (h : scanStart s b = Result.cont s1)
    (hu : s.unconfirmed = 0) : ∃ k, s1 = { s with startpoint := k } := by
  unfold scanStart at h
  dsimp only at h
  split at h
  · simp at h
  · split_ifs at h with h1 h2
    · exact absurd hu h2.2
    · simp at h
      exact ⟨_, h.symm⟩
    · simp at h
      exact ⟨_, h.symm⟩

theorem scanByte_start_absorbed (sp : State) (b : Nat) (hle : sp.confpoint ≤ 3)
    (hap : cursorsApart sp) (hu : sp.unconfirmed = 0) (hcomp : completesStart sp b) :
    ∃ s1, scanByte sp b = Result.cont s1 ∧ s1.trace = sp.trace ∧ s1.unconfirmed = 0 ∧
      s1.gcpoint = sp.gcpoint ∧ s1.gcodebuf = sp.gcodebuf := by
  unfold completesStart at hcomp
  split at hcomp
  · rename_i s1 hs1
    refine ⟨s1, hs1, ?_⟩
    obtain ⟨_, _, a3, _⟩ := scanByte_cont hs1 hle
    have hnc : ¬ (sp.confpoint = 3 ∧ b = 10) := by
      rintro ⟨c3, rfl⟩
      have hs0 : sp.startpoint = 0 := hap (by omega)
      rw [a3, hs0] at hcomp
      simp [START_MSG, strlen_start_lit] at hcomp
    obtain ⟨c, hq⟩ := scanConfirm_quiet sp b hle hnc
    unfold scanByte at hs1
    rw [hq] at hs1
    simp only [andThen_cont] at hs1
    obtain ⟨k, hk⟩ := scanStart_quiet hs1 hu
    rw [hk]
    exact ⟨rfl, hu, rfl, rfl⟩
  · exact hcomp.elim

/-- C15: for every reply byte sequence `pre` scanned from both cursors at 0,
if `unconfirmed = 0` and the next byte `b` completes the reset token, then the
scan of `b` runs to its end (no `exit`, no fault), appends nothing to the log
(so nothing is written to the device), and leaves `unconfirmed` at 0 and
`gcpoint` and `gcodebuf` as they were. -/
theorem reset_with_nothing_pending (s0 sp : State) (pre : List Nat) (b : Nat)
    (hc : s0.confpoint = 0) (hs : s0.startpoint = 0)
    (hrun : scanLoop s0 pre = Result.cont sp) (hu : sp.unconfirmed = 0)
    (hcomp : completesStart sp b) :
    ∃ s1, scanByte sp b = Result.cont s1 ∧ writesOf s1.trace = writesOf sp.trace ∧
      s1.trace = sp.trace ∧ s1.unconfirmed = 0 ∧
      s1.gcpoint = sp.gcpoint ∧ s1.gcodebuf = sp.gcodebuf := by
  have hle : sp.confpoint ≤ 3 := scanLoop_confpoint_le hrun (by omega)
  have hap : cursorsApart sp := scanLoop_cursorsApart hrun (by omega) (fun _ => hs)
  obtain ⟨s1, h1, h2, h3, h4, h5⟩ := scanByte_start_absorbed sp b hle hap hu hcomp
  exact ⟨s1, h1, by rw [h2], h2, h3, h4, h5⟩



/-- The theorem `reset_with_nothing_pending` applied to the boot banner
`"start\r\n"` arriving before any command; the whole iteration that reads the
banner goes on to the next one and has written nothing. -/
theorem reset_with_nothing_pending_witness :
    init.confpoint = 0 ∧ init.startpoint = 0 ∧
    scanLoop init bannerHead = Result.cont (scanLoop init bannerHead).state ∧
    (scanLoop init bannerHead).state.unconfirmed = 0 ∧
    completesStart (scanLoop init bannerHead).state 10 ∧
    (∃ s1, scanByte (scanLoop init bannerHead).state 10 = Result.cont s1 ∧
      writesOf s1.trace = writesOf (scanLoop init bannerHead).state.trace ∧
      s1.trace = (scanLoop init bannerHead).state.trace ∧ s1.unconfirmed = 0 ∧
      s1.gcpoint = (scanLoop init bannerHead).state.gcpoint ∧
      s1.gcodebuf = (scanLoop init bannerHead).state.gcodebuf) ∧
    step lockstep init (serialEv (token START_MSG))
      = Result.cont (step lockstep init (serialEv (token START_MSG))).state ∧
    (step lockstep init (serialEv (token START_MSG))).state.trace = [] :=
  ⟨rfl, rfl, rfl, by decide, by decide,
    reset_with_nothing_pending init _ bannerHead 10 rfl rfl rfl (by decide) (by decide),
    rfl, by decide⟩

/-- C14 fails when a line is partly accumulated: in lockstep, after the byte
`A` has been read (`gcpoint = 1`, `unconfirmed = 0`), a confirmation
`"ok\r\n"` sets `gcpoint` to 0 (line 369 is outside the check of line 363), and
the line `"AB"` of the command source is transmitted as `"B"`. -/
theorem spurious_confirmation_drops_line :
    (run lockstep init (inputEvs [65])).state.gcpoint = 1 ∧
    (run lockstep init (inputEvs [65])).state.unconfirmed = 0 ∧
    (run lockstep init (inputEvs [65] ++ [serialEv (token CONFIRM_MSG)])).state.gcpoint = 0 ∧
    (run lockstep init (inputEvs [65] ++ [serialEv (token CONFIRM_MSG)])).state.unconfirmed
      = 0 ∧
    writesOf (run lockstep init
      (inputEvs [65] ++ [serialEv (token CONFIRM_MSG)] ++ inputEvs [66, 10])).state.trace
      = [[66], CRLF] := by
  decide

/-- C13 fails for `serial_write`: when the two calls that transmit the line
`"A"` report failure, the loop goes on to the next iteration (no `exit`),
counts the line as in flight (`unconfirmed = 1`), and after a confirmation
transmits the next line `"B"`.  A failure of `poll` or of `read` ends the
loop with `exit(EXIT_FAILURE)`. -/
theorem failed_write_is_ignored :
    failedWriteEv.writeFails = true ∧
    run lockstep init (inputEvs [65] ++ [failedWriteEv])
      = Result.cont (run lockstep init (inputEvs [65] ++ [failedWriteEv])).state ∧
    (run lockstep init (inputEvs [65] ++ [failedWriteEv])).state.unconfirmed = 1 ∧
    writesOf (run lockstep init (inputEvs [65] ++ [failedWriteEv] ++
      [serialEv (token CONFIRM_MSG)] ++ inputEvs [66, 10])).state.trace
      = [[65], CRLF, [66], CRLF] ∧
    (match step lockstep init { inputEv ReadResult.eof with pollRet := -1 } with
      | Result.exit c _ => c
      | _ => 0) = EXIT_FAILURE ∧
    (match step lockstep init (inputEv ReadResult.error) with
      | Result.exit c _ => c
      | _ => 0) = EXIT_FAILURE := by
  refine ⟨rfl, rfl, ?_, ?_, ?_, ?_⟩ <;> decide

/-! ## The framer -/

theorem step_inputEv_byte (cfg : Config) (s : State) (b : Nat) (hd : s.inputdone = false) :
    step cfg s (inputEv (ReadResult.byte b)) =
      frame cfg { s with inputRevents := POLLIN, serialRevents := 0,
                         trace := s.trace ++ [Action.inputRead (ReadResult.byte b)] } b := by
  simp [step, hd, inputEv, pollPart, serialPart, inputPart, POLLIN]

theorem compressed_cons (b : Nat) (bs : List Nat) :
    compressed (b :: bs) =
      (if b = 59 then [] else if b = 32 ∨ b = 9 then compressed bs else b :: compressed bs) := by
  unfold compressed
  by_cases h1 : b = 59
  · simp [h1]
  · by_cases h2 : b = 32 ∨ b = 9
    · rcases h2 with h | h <;> subst h <;> simp [List.takeWhile_cons, List.filter_cons]
    · push_neg at h2
      simp [List.takeWhile_cons, List.filter_cons, h1, h2.1, h2.2]

theorem frame_nonterminator (cfg : Config) (s : State) (b : Nat) (h1 : b ≠ 13) (h2 : b ≠ 10) :
    frame cfg s b =
      (if cfg.compress = true ∧ b = 59 then Result.cont { s with gccomment := true }
       else if cfg.compress = true ∧ (b = 32 ∨ b = 9) then Result.cont s
       else if s.gccomment = false then store s b else Result.cont s) := by
  unfold frame
  dsimp only
  rw [if_neg (by omega)]
  by_cases hc : cfg.compress = true
  · by_cases h59 : b = 59
    · simp [hc, h59]
    · by_cases hsp : b = 32 ∨ b = 9
      · rcases hsp with h | h <;> simp [hc, h]
      · push_neg at hsp
        simp [hc, h59, hsp.1, hsp.2]
  · simp [hc]

/-- The bytes the loop stores for a line, from a state with `gccomment`
set or not. -/
theorem run_line (cfg : Config) (line : List Nat) (s : State)
    (hd : s.inputdone = false) (hlen : s.gcodebuf.length = GCODE_BUFSIZE)
    (hcc : s.gccomment = true → cfg.compress = true)
    (hfree : ∀ b ∈ line, b ≠ 13 ∧ b ≠ 10)
    (hcap : s.gcpoint + (if s.gccomment = true then 0 else (payloadOf cfg line).length)
      ≤ GCODE_BUFSIZE) :
    ∃ s1, run cfg s (inputEvs line) = Result.cont s1 ∧
      s1.inputdone = false ∧ s1.gcodebuf.length = GCODE_BUFSIZE ∧
      s1.gcpoint = s.gcpoint + (if s.gccomment = true then 0 else (payloadOf cfg line).length) ∧
      s1.gcodebuf.take s1.gcpoint = s.gcodebuf.take s.gcpoint ++
        (if s.gccomment = true then [] else payloadOf cfg line) ∧
      writesOf s1.trace = writesOf s.trace ∧ s1.unconfirmed = s.unconfirmed ∧
      (s1.gccomment = true → cfg.compress = true) := by
  induction line generalizing s with
  | nil =>
    refine ⟨s, rfl, hd, hlen, ?_, ?_, rfl, rfl, hcc⟩
    · split_ifs <;> simp [payloadOf, compressed]
    · split_ifs <;> simp [payloadOf, compressed]
  | cons b line ih =>
    obtain ⟨hb1, hb2⟩ := hfree b (List.mem_cons_self _ _)
    have hfree2 : ∀ x ∈ line, x ≠ 13 ∧ x ≠ 10 := fun x hx => hfree x (List.mem_cons_of_mem _ hx)
    simp only [inputEvs, List.map_cons, run]
    rw [step_inputEv_byte cfg s b hd, frame_nonterminator cfg _ b hb1 hb2]
    have hw : writesOf (s.trace ++ [Action.inputRead (ReadResult.byte b)]) = writesOf s.trace := by
      simp [writesOf]
    by_cases hc : cfg.compress = true
    · have hp : ∀ l, payloadOf cfg l = compressed l := fun l => by simp [payloadOf, hc]
      rw [hp] at hcap ⊢
      rw [compressed_cons] at hcap ⊢
      by_cases h59 : b = 59
      · rw [if_pos ⟨hc, h59⟩]
        simp only [andThen_cont]
        obtain ⟨s1, r, a1, a2, a3, a4, a5, a6, a7⟩ := ih
          ⟨s.confpoint, s.startpoint, s.gcpoint, true, s.unconfirmed, s.inputdone, s.gcodebuf,
            s.inputEvents, POLLIN, 0, s.trace ++ [Action.inputRead (ReadResult.byte b)]⟩
          hd hlen (fun _ => hc) hfree2 (by dsimp only; rw [if_pos rfl]; omega)
        dsimp only at a3 a4 a5 a6
        rw [if_pos rfl] at a3 a4
        refine ⟨s1, r, a1, a2, ?_, ?_, by rw [a5]; exact hw, a6, a7⟩
        · rw [a3]; simp [h59]
        · rw [a4]; simp [h59]
      · by_cases hsp : b = 32 ∨ b = 9
        · rw [if_neg (by tauto), if_pos ⟨hc, hsp⟩]
          simp only [andThen_cont]
          rw [if_neg h59, if_pos hsp] at hcap
          obtain ⟨s1, r, a1, a2, a3, a4, a5, a6, a7⟩ := ih
            ⟨s.confpoint, s.startpoint, s.gcpoint, s.gccomment, s.unconfirmed, s.inputdone, s.gcodebuf,
            s.inputEvents, POLLIN, 0, s.trace ++ [Action.inputRead (ReadResult.byte b)]⟩
            hd hlen hcc hfree2 (by rw [hp]; exact hcap)
          dsimp only at a3 a4 a5 a6
          rw [hp] at a3 a4
          refine ⟨s1, r, a1, a2, ?_, ?_, by rw [a5]; exact hw, a6, a7⟩
          · rw [a3, if_neg h59, if_pos hsp]
          · rw [a4, if_neg h59, if_pos hsp]
        · rw [if_neg (by tauto), if_neg (by tauto)]
          rw [if_neg h59, if_neg hsp] at hcap
          by_cases hg : s.gccomment = true
          · rw [if_neg (by simp [hg])]
            simp only [andThen_cont]
            rw [if_pos hg] at hcap
            obtain ⟨s1, r, a1, a2, a3, a4, a5, a6, a7⟩ := ih
              ⟨s.confpoint, s.startpoint, s.gcpoint, s.gccomment, s.unconfirmed, s.inputdone, s.gcodebuf,
            s.inputEvents, POLLIN, 0, s.trace ++ [Action.inputRead (ReadResult.byte b)]⟩
              hd hlen hcc hfree2 (by dsimp only; rw [if_pos hg]; exact hcap)
            dsimp only at a3 a4 a5 a6
            rw [if_pos hg] at a3 a4
            refine ⟨s1, r, a1, a2, ?_, ?_, by rw [a5]; exact hw, a6, a7⟩
            · rw [a3, if_pos hg]
            · rw [a4, if_pos hg]
          · have hgf : s.gccomment = false := by simpa using hg
            rw [if_pos (by exact hgf)]
            rw [if_neg hg] at hcap
            simp only [List.length_cons] at hcap
            unfold store
            dsimp only
            rw [if_pos (by omega)]
            simp only [andThen_cont]
            obtain ⟨s1, r, a1, a2, a3, a4, a5, a6, a7⟩ := ih
              ⟨s.confpoint, s.startpoint, s.gcpoint + 1, s.gccomment, s.unconfirmed, s.inputdone,
              s.gcodebuf.set s.gcpoint b, s.inputEvents, POLLIN, 0,
              s.trace ++ [Action.inputRead (ReadResult.byte b)]⟩
              hd (by simp only [List.length_set]; exact hlen)
              hcc hfree2 (by dsimp only; rw [if_neg hg, hp]; omega)
            dsimp only at a3 a4 a5 a6
            rw [if_neg hg, hp] at a3 a4
            refine ⟨s1, r, a1, a2, ?_, ?_, by rw [a5]; exact hw, a6, a7⟩
            · rw [a3, if_neg hg, if_neg h59, if_neg hsp]
              simp only [List.length_cons]; omega
            · rw [a4, if_neg hg, if_neg h59, if_neg hsp,
                take_set_succ _ _ _ (by rw [hlen]; omega)]
              simp
    · have hcf : cfg.compress = false := by simpa using hc
      have hg : s.gccomment = false := by
        by_contra h
        exact hc (hcc (by simpa using h))
      have hp : ∀ l, payloadOf cfg l = l := fun l => by simp [payloadOf, hcf]
      rw [hp] at hcap ⊢
      rw [if_neg (by tauto), if_neg (by tauto), if_pos (by exact hg)]
      rw [if_neg (by simp [hg])] at hcap
      simp only [List.length_cons] at hcap
      unfold store
      dsimp only
      rw [if_pos (by omega)]
      simp only [andThen_cont]
      obtain ⟨s1, r, a1, a2, a3, a4, a5, a6, a7⟩ := ih
        ⟨s.confpoint, s.startpoint, s.gcpoint + 1, s.gccomment, s.unconfirmed, s.inputdone,
              s.gcodebuf.set s.gcpoint b, s.inputEvents, POLLIN, 0,
              s.trace ++ [Action.inputRead (ReadResult.byte b)]⟩
        hd (by simp only [List.length_set]; exact hlen)
        hcc hfree2 (by dsimp only; rw [if_neg (by simp [hg]), hp]; omega)
      dsimp only at a3 a4 a5 a6
      rw [if_neg (by simp [hg]), hp] at a3 a4
      refine ⟨s1, r, a1, a2, ?_, ?_, by rw [a5]; exact hw, a6, a7⟩
      · rw [a3, if_neg (by simp [hg])]
        simp only [List.length_cons]; omega
      · rw [a4, if_neg (by simp [hg]), take_set_succ _ _ _ (by rw [hlen]; omega)]
        simp



theorem run_append (cfg : Config) (s : State) (xs ys : List Event) :
    run cfg s (xs ++ ys) = (run cfg s xs).andThen (fun s1 => run cfg s1 ys) := by
  induction xs generalizing s with
  | nil => simp [run]
  | cons x xs ih =>
    simp only [List.cons_append, run]
    cases h : step cfg s x with
    | cont s1 => simp [ih]
    | exit c s1 => simp
    | fault s1 => simp

theorem frame_terminator (cfg : Config) (s : State) (t : Nat) (ht : t = 13 ∨ t = 10) :
    ∃ s1, frame cfg s t = Result.cont s1 ∧ s1.gccomment = false ∧
      writesOf s1.trace = writesOf s.trace ++
        (if s.gcpoint = 0 then [] else [s.gcodebuf.take s.gcpoint, CRLF]) ∧
      s1.unconfirmed = (if s.gcpoint = 0 then s.unconfirmed
        else (s.unconfirmed + 1) % UINT_MOD) := by
  unfold frame
  dsimp only
  rw [if_pos ht]
  split_ifs with h1 h2
  · exact ⟨_, rfl, rfl, by simp, rfl⟩
  · exact ⟨_, rfl, rfl, by simp [writesOf], rfl⟩
  · exact ⟨_, rfl, rfl, by simp [writesOf], rfl⟩

/-- C11: a line free of CR and LF is read byte by byte from an empty buffer with
`gccomment = 0` and then its terminator is read.  The loop goes on, and if
the expected payload (with `compress = 1` the bytes before the first `;`
without spaces and tabs, with `compress = 0` the line itself) is empty it has
written nothing and left `unconfirmed` as it was; otherwise it has written
exactly that payload and `"\r\n"` and incremented `unconfirmed`.  The payload
has to fit the buffer. -/
theorem compression_semantics (cfg : Config) (s : State) (line : List Nat) (t : Nat)
    (hd : s.inputdone = false) (hg : s.gcpoint = 0) (hc : s.gccomment = false)
    (hlen : s.gcodebuf.length = GCODE_BUFSIZE)
    (hfree : ∀ b ∈ line, b ≠ 13 ∧ b ≠ 10) (ht : t = 13 ∨ t = 10)
    (hcap : (payloadOf cfg line).length ≤ GCODE_BUFSIZE) :
    ∃ s1, run cfg s (inputEvs (line ++ [t])) = Result.cont s1 ∧
      writesOf s1.trace = writesOf s.trace ++
        (if payloadOf cfg line = [] then [] else [payloadOf cfg line, CRLF]) ∧
      s1.unconfirmed = (if payloadOf cfg line = [] then s.unconfirmed
        else (s.unconfirmed + 1) % UINT_MOD) := by
  obtain ⟨s1, r, a1, a2, a3, a4, a5, a6, _⟩ := run_line cfg line s hd hlen
    (fun h => by rw [hc] at h; simp at h) hfree
    (by rw [hg, if_neg (by simp [hc])]; omega)
  rw [hg, if_neg (by simp [hc])] at a3 a4
  simp only [Nat.zero_add, List.take_zero, List.nil_append] at a3 a4
  have he : inputEvs (line ++ [t]) = inputEvs line ++ [inputEv (ReadResult.byte t)] := by
    simp [inputEvs]
  rw [he, run_append, r]
  simp only [andThen_cont, run]
  rw [step_inputEv_byte cfg s1 t a1]
  obtain ⟨s2, f, _, b2, b3⟩ := frame_terminator cfg
    { s1 with inputRevents := POLLIN, serialRevents := 0,
              trace := s1.trace ++ [Action.inputRead (ReadResult.byte t)] } t ht
  rw [f]
  simp only [andThen_cont]
  refine ⟨s2, rfl, ?_, ?_⟩
  · rw [b2]
    dsimp only
    rw [a4]
    have hw : writesOf (s1.trace ++ [Action.inputRead (ReadResult.byte t)]) = writesOf s.trace := by
      rw [← a5]; simp [writesOf]
    rw [hw, a3]
    by_cases hp : payloadOf cfg line = []
    · simp [hp]
    · have : (payloadOf cfg line).length ≠ 0 := fun h => hp (List.length_eq_zero.mp h)
      simp [hp, this]
  · rw [b3]
    dsimp only
    rw [a3, a6]
    by_cases hp : payloadOf cfg line = []
    · simp [hp]
    · have : (payloadOf cfg line).length ≠ 0 := fun h => hp (List.length_eq_zero.mp h)
      simp [hp, this]

/-- The theorem `compression_semantics` applied to the line
`"  G1 X10 ; comment"` ended by `\n`, with `-c` and without: the loop writes
`"G1X10"`, `"\r\n"` when compressing and the whole line, `"\r\n"` otherwise. -/
theorem compression_semantics_witness :
    commentedLine = bytes "  G1 X10 ; comment" ∧
    payloadOf compressing commentedLine = bytes "G1X10" ∧
    payloadOf lockstep commentedLine = commentedLine ∧
    init.inputdone = false ∧ init.gcpoint = 0 ∧ init.gccomment = false ∧
    init.gcodebuf.length = GCODE_BUFSIZE ∧
    (∀ b ∈ commentedLine, b ≠ 13 ∧ b ≠ 10) ∧
    (payloadOf compressing commentedLine).length ≤ GCODE_BUFSIZE ∧
    (∃ s1, run compressing init (inputEvs (commentedLine ++ [10])) = Result.cont s1 ∧
      writesOf s1.trace = writesOf init.trace ++
        (if payloadOf compressing commentedLine = [] then []
         else [payloadOf compressing commentedLine, CRLF]) ∧
      s1.unconfirmed = (if payloadOf compressing commentedLine = [] then init.unconfirmed
        else (init.unconfirmed + 1) % UINT_MOD)) ∧
    writesOf (run compressing init (inputEvs (commentedLine ++ [10]))).state.trace
      = [bytes "G1X10", CRLF] ∧
    writesOf (run lockstep init (inputEvs (commentedLine ++ [10]))).state.trace
      = [commentedLine, CRLF] :=
  ⟨by decide, by decide, by decide, rfl, rfl, rfl, by simp [init], by decide, by decide,
    compression_semantics compressing init commentedLine 10 rfl rfl rfl (by simp [init])
      (by decide) (Or.inr rfl) (by decide),
    by decide, by decide⟩

/-! ## Recovery from a reset of the device -/

theorem resetReply_eq : resetReply = [115, 116, 97, 114, 116, 13, 10, 111, 107, 13, 10] := by
  decide

theorem scanByte_recovering (line : List Nat) (tr0 : List Action) (j : Nat) (s : State)
    (hj : j ≤ 10) (hs : recovering line tr0 j s) :
    ∃ s1, scanByte s (resetReply.getD j 0) = Result.cont s1 ∧
      s1.inputRevents = s.inputRevents ∧ s1.serialRevents = s.serialRevents ∧
      (if j + 1 ≤ 10 then recovering line tr0 (j + 1) s1 else recovered line tr0 s1) := by
  obtain ⟨cp, sp, g, gc, u, idone, buf, ie, ire, sre, tr⟩ := s
  obtain ⟨h1, h2, h3, h4, h5, h6, h7, h8, h9, h10⟩ := hs
  simp only at h1 h2 h3 h4 h5 h6 h7 h8 h9 h10
  subst h1 h2 h3 h4 h5 h6 h8 h10
  rw [resetReply_eq]
  have hcases : j = 0 ∨ j = 1 ∨ j = 2 ∨ j = 3 ∨ j = 4 ∨ j = 5 ∨ j = 6 ∨ j = 7 ∨ j = 8 ∨ j = 9 ∨
      j = 10 := by omega
  rcases hcases with e | e | e | e | e | e | e | e | e | e | e <;> subst e <;>
    simp [scanByte, scanConfirm, scanStart, strlen_confirm_lit, strlen_start_lit, CONFIRM_MSG,
      START_MSG, recovering, recovered, accumulating, resendTrace, h7, h9, POLLIN]



theorem resetReply_take_succ (j k : Nat) (hj : j ≤ 10) :
    (resetReply.drop j).take (k + 1) =
      resetReply.getD j 0 :: (resetReply.drop (j + 1)).take k := by
  have hlen : j < resetReply.length := by rw [resetReply_eq]; simp; omega
  rw [List.drop_eq_getElem_cons hlen, List.take_succ_cons, List.getD_eq_getElem _ _ hlen]

theorem scanLoop_recovering (line : List Nat) (tr0 : List Action) (k j : Nat) (s : State)
    (hjk : j + k ≤ 11) (hj : j ≤ 10) (hs : recovering line tr0 j s) :
    ∃ s1, scanLoop s ((resetReply.drop j).take k) = Result.cont s1 ∧
      s1.inputRevents = s.inputRevents ∧ s1.serialRevents = s.serialRevents ∧
      (if j + k ≤ 10 then recovering line tr0 (j + k) s1 else recovered line tr0 s1) := by
  induction k generalizing j s with
  | zero =>
    refine ⟨s, by simp [scanLoop], rfl, rfl, ?_⟩
    rw [if_pos (by omega)]
    exact hs
  | succ k ih =>
    rw [resetReply_take_succ j k hj]
    simp only [scanLoop]
    obtain ⟨s1, e1, r1, r2, c1⟩ := scanByte_recovering line tr0 j s hj hs
    rw [e1]
    simp only [andThen_cont]
    by_cases hlast : j + 1 ≤ 10
    · rw [if_pos hlast] at c1
      obtain ⟨s2, e2, q1, q2, c2⟩ := ih (j + 1) s1 (by omega) hlast c1
      refine ⟨s2, e2, by rw [q1, r1], by rw [q2, r2], ?_⟩
      have : j + 1 + k = j + (k + 1) := by omega
      rw [this] at c2
      exact c2
    · rw [if_neg hlast] at c1
      have hk : k = 0 := by omega
      subst hk
      refine ⟨s1, by simp [scanLoop], r1, r2, ?_⟩
      rw [if_neg (by omega)]
      exact c1

theorem step_serial_only (cfg : Config) (s s1 : State) (ev : Event)
    (hd : s.inputdone = false) (hp : 0 ≤ ev.pollRet) (hi : ev.inputRevents = 0)
    (hsr : ev.serialRevents = POLLIN)
    (hscan : scanLoop { s with inputRevents := 0, serialRevents := POLLIN } ev.reply
      = Result.cont s1)
    (hr : s1.inputRevents = 0) : step cfg s ev = Result.cont s1 := by
  unfold step
  rw [if_neg (by simp [hd]), if_neg (by omega)]
  have hpp : pollPart s ev = { s with inputRevents := 0, serialRevents := POLLIN } := by
    simp [pollPart, hd, hi, hsr]
  rw [hpp]
  unfold serialPart
  rw [if_pos (by simp [POLLIN]), hscan]
  simp only [andThen_cont]
  unfold inputPart
  rw [if_neg (by simp [hr])]

theorem advance_quiet (dev : Device) (w : World) (k : Nat) (acts : List Action)
    (hr : readCount acts = 0) (hw : (writesOf acts).count CRLF = 0) :
    advance dev w k acts =
      { input := w.input, pending := w.pending.drop k, received := w.received } := by
  simp [advance, hr, hw]

theorem advance_resend (dev : Device) (w : World) (k : Nat) (acts : List Action)
    (hr : readCount acts = 0) (hw : (writesOf acts).count CRLF = 1)
    (hdev : dev w.received = []) :
    advance dev w k acts =
      { input := w.input, pending := w.pending.drop k, received := w.received + 1 } := by
  simp [advance, hr, hw, hdev]

theorem chunkSize_recovering (line : List Nat) (tr0 : List Action) (req j : Nat) (s : State)
    (w : World) (hs : recovering line tr0 j s) (hj : j ≤ 10)
    (hp : w.pending = resetReply.drop j) :
    1 ≤ chunkSize s w req ∧ j + chunkSize s w req ≤ 11 ∧
      w.pending.take (chunkSize s w req) = (resetReply.drop j).take (chunkSize s w req) := by
  obtain ⟨_, _, _, _, h5, _⟩ := hs
  have hlen : w.pending.length = 11 - j := by
    rw [hp, resetReply_eq]; simp
  unfold chunkSize inputReady
  simp only [h5, hlen, SERIAL_BUFSIZE]
  simp
  refine ⟨by omega, by omega, by rw [hp]⟩



theorem resend_counts (line : List Nat) (hline : line ≠ CRLF) :
    readCount (resendTrace line) = 0 ∧ (writesOf (resendTrace line)).count CRLF = 1 ∧
    readCount (resendTrace line ++ [Action.confirmed true]) = 0 ∧
    (writesOf (resendTrace line ++ [Action.confirmed true])).count CRLF = 1 := by
  simp [resendTrace, readCount, writesOf, List.count_cons, hline]

theorem closedStep_recovering (dev : Device) (line : List Nat) (tr0 : List Action)
    (req j r0 : Nat) (s : State) (w : World) (hj : j ≤ 10) (hs : recovering line tr0 j s)
    (hp : w.pending = resetReply.drop j)
    (hrec : w.received = r0 + (if 7 ≤ j then 1 else 0)) (hdev : dev r0 = [])
    (hline : line ≠ CRLF) :
    ∃ s1 w1 j1, closedStep lockstep dev req (Sys.running s w) = Sys.running s1 w1 ∧
      w1.input = w.input ∧ j < j1 ∧
      ((j1 ≤ 10 ∧ recovering line tr0 j1 s1 ∧ w1.pending = resetReply.drop j1 ∧
          w1.received = r0 + (if 7 ≤ j1 then 1 else 0)) ∨
       (recovered line tr0 s1 ∧ w1.pending = [])) := by
  obtain ⟨k1, k2, k3⟩ := chunkSize_recovering line tr0 req j s w hs hj hp
  have hs2 : recovering line tr0 j { s with inputRevents := 0, serialRevents := POLLIN } := hs
  obtain ⟨s1, escan, r1, _, c⟩ := scanLoop_recovering line tr0 (chunkSize s w req) j _ k2 hj hs2
  have hev : s.inputEvents = 0 := hs.2.2.2.2.1
  have hdone : s.inputdone = false := hs.2.2.2.1
  have hstep : step lockstep s (closedEvent s w req) = Result.cont s1 := by
    apply step_serial_only
    · exact hdone
    · simp [closedEvent]
    · simp [closedEvent, hev]
    · simp only [closedEvent]
      rw [if_neg (by omega)]
    · simp only [closedEvent]
      rw [k3]
      exact escan
    · exact r1
  have hne : w.pending ≠ [] := by
    rw [hp, resetReply_eq]
    intro h
    have := congrArg List.length h
    simp at this
    omega
  have hcs : closedStep lockstep dev req (Sys.running s w) =
      Sys.running s1 (advance dev w (chunkSize s w req) (s1.trace.drop s.trace.length)) := by
    simp only [closedStep]
    rw [if_neg (by simp [hdone]), if_neg (by simp [hne]), hstep]
  have hdrop : w.pending.drop (chunkSize s w req) = resetReply.drop (j + chunkSize s w req) := by
    rw [hp, List.drop_drop]
  have htr : s.trace = tr0 ++ (if 7 ≤ j then resendTrace line else []) := hs.2.2.2.2.2.2.2.2.2
  obtain ⟨n1, n2, n3, n4⟩ := resend_counts line hline
  refine ⟨s1, _, j + chunkSize s w req, hcs, ?_, by omega, ?_⟩
  · by_cases hA : j + chunkSize s w req ≤ 10
    · rw [if_pos hA] at c
      have htr1 := c.2.2.2.2.2.2.2.2.2
      by_cases h7 : 7 ≤ j
      · rw [htr, htr1, if_pos h7, if_pos (by omega)]
        simp [advance, readCount]
      · by_cases h7b : 7 ≤ j + chunkSize s w req
        · rw [htr, htr1, if_neg h7, if_pos h7b]
          simp [advance, n1]
        · rw [htr, htr1, if_neg h7, if_neg h7b]
          simp [advance, readCount]
    · rw [if_neg hA] at c
      have htr1 := c.2.2
      by_cases h7 : 7 ≤ j
      · rw [htr, htr1, if_pos h7]
        simp [advance, readCount]
      · rw [htr, htr1, if_neg h7]
        simp only [List.append_nil, List.append_assoc, List.drop_left]
        simp [advance, n3]
  · by_cases hA : j + chunkSize s w req ≤ 10
    · rw [if_pos hA] at c
      left
      have htr1 := c.2.2.2.2.2.2.2.2.2
      refine ⟨hA, c, ?_, ?_⟩
      · by_cases h7 : 7 ≤ j
        · rw [htr, htr1, if_pos h7, if_pos (by omega)]
          simp [advance, hdrop, writesOf]
        · by_cases h7b : 7 ≤ j + chunkSize s w req
          · rw [htr, htr1, if_neg h7, if_pos h7b]
            rw [if_neg h7] at hrec
            simp only [List.append_nil, List.drop_left]
            rw [advance_resend dev w _ _ n1 n2 (by rw [hrec]; exact hdev)]
            exact hdrop
          · rw [htr, htr1, if_neg h7, if_neg h7b]
            simp [advance, hdrop, writesOf]
      · by_cases h7 : 7 ≤ j
        · rw [htr, htr1, if_pos h7, if_pos (by omega), if_pos (by omega)]
          rw [if_pos h7] at hrec
          simp [advance, hrec, writesOf]
        · by_cases h7b : 7 ≤ j + chunkSize s w req
          · rw [htr, htr1, if_neg h7, if_pos h7b, if_pos h7b]
            rw [if_neg h7] at hrec
            simp only [List.append_nil, List.drop_left]
            rw [advance_resend dev w _ _ n1 n2 (by rw [hrec]; exact hdev)]
            simp [hrec]
          · rw [htr, htr1, if_neg h7, if_neg h7b, if_neg h7b]
            rw [if_neg h7] at hrec
            simp [advance, hrec, writesOf]
    · rw [if_neg hA] at c
      right
      have htr1 := c.2.2
      have hnil : resetReply.drop (j + chunkSize s w req) = [] := by
        rw [resetReply_eq]
        apply List.drop_eq_nil_of_le
        simp
        omega
      refine ⟨c, ?_⟩
      by_cases h7 : 7 ≤ j
      · rw [htr, htr1, if_pos h7]
        simp [advance, hdrop, hnil, writesOf]
      · rw [htr, htr1, if_neg h7]
        rw [if_neg h7] at hrec
        simp only [List.append_nil, List.append_assoc, List.drop_left]
        rw [advance_resend dev w _ _ n3 n4 (by rw [hrec]; exact hdev)]
        simp only
        rw [hdrop, hnil]



theorem untilReached_now {cfg : Config} {dev : Device} {inv P : Sys → Prop} {a : Sys}
    (h : P a) : untilReached cfg dev inv a P :=
  fun _ => ⟨0, h, fun m hm => absurd hm (Nat.not_lt_zero m)⟩

theorem untilReached_step {cfg : Config} {dev : Device} {inv P : Sys → Prop} {a : Sys}
    (ha : inv a) (h : ∀ req, untilReached cfg dev inv (closedStep cfg dev req a) P) :
    untilReached cfg dev inv a P := by
  intro sched
  obtain ⟨n, hn, hm⟩ := h (sched 0) (fun i => sched (i + 1))
  refine ⟨n + 1, hn, ?_⟩
  intro m hlt
  cases m with
  | zero => exact ha
  | succ m => exact hm m (by omega)

/-- From any point of the reply `"start\r\n" "ok\r\n"`, the loop scans the
rest of it, in whatever chunks it arrives, without touching the command
source. -/
theorem recovery_phase (dev : Device) (line : List Nat) (tr0 : List Action) (input0 : List Nat)
    (r0 j : Nat) (s : State) (w : World) (hj : j ≤ 10) (hs : recovering line tr0 j s)
    (hp : w.pending = resetReply.drop j)
    (hrec : w.received = r0 + (if 7 ≤ j then 1 else 0)) (hdev : dev r0 = [])
    (hline : line ≠ CRLF) (hin : w.input = input0) :
    untilReached lockstep dev
      (fun sys => ∃ s1 w1, sys = Sys.running s1 w1 ∧ s1.unconfirmed = 1 ∧ w1.input = input0 ∧
        (s1.trace = tr0 ∨ s1.trace = tr0 ++ resendTrace line))
      (Sys.running s w)
      (fun sys => ∃ s1 w1, sys = Sys.running s1 w1 ∧ recovered line tr0 s1 ∧
        w1.input = input0 ∧ w1.pending = []) := by
  generalize hm : 10 - j = m
  induction m using Nat.strong_induction_on generalizing j s w with
  | _ m ih =>
    apply untilReached_step
    · refine ⟨s, w, rfl, hs.2.2.1, hin, ?_⟩
      have htr := hs.2.2.2.2.2.2.2.2.2
      by_cases h7 : 7 ≤ j
      · right; rw [htr, if_pos h7]
      · left; rw [htr, if_neg h7]; simp
    · intro req
      obtain ⟨s1, w1, j1, e1, i1, hlt, hcase⟩ :=
        closedStep_recovering dev line tr0 req j r0 s w hj hs hp hrec hdev hline
      rw [e1]
      rcases hcase with ⟨c1, c2, c3, c4⟩ | ⟨c1, c2⟩
      · exact ih (10 - j1) (by omega) j1 s1 w1 c1 c2 c3 c4 (by rw [i1, hin]) rfl
      · apply untilReached_now
        exact ⟨s1, w1, rfl, c1, by rw [i1, hin], c2⟩

/-- C12: with `max_unconfirmed = 0`, let the line `line` (free of CR and LF)
have just been transmitted: `unconfirmed = 1`, both cursors at 0, the buffer
holding `line`; let the reply under way be `"start\r\n"` followed by
`"ok\r\n"`, and let the device send nothing more for the retransmitted line.
Then for every schedule of the reply chunks the loop reaches, after finitely
many iterations, a state with `unconfirmed = 0` and an empty buffer, in which
it has written `line` and `"\r\n"` exactly once more and the confirmation
has completed after that write; in every iteration before, `unconfirmed` is 1,
nothing has been read from the command source, and the log holds either
nothing new or the one retransmission. -/
theorem reset_recovery (dev : Device) (line : List Nat) (s : State) (w : World)
    (hs : awaiting 0 s) (hfree : ∀ b ∈ line, b ≠ 13 ∧ b ≠ 10)
    (hg : s.gcpoint = line.length) (hb : s.gcodebuf.take s.gcpoint = line)
    (hp : w.pending = resetReply) (hdev : dev w.received = []) :
    untilReached lockstep dev
      (fun sys => ∃ s1 w1, sys = Sys.running s1 w1 ∧ s1.unconfirmed = 1 ∧ w1.input = w.input ∧
        (s1.trace = s.trace ∨ s1.trace = s.trace ++
          [Action.machineReset, Action.serialWrite line, Action.serialWrite CRLF]))
      (Sys.running s w)
      (fun sys => ∃ s1 w1, sys = Sys.running s1 w1 ∧ accumulating s1 ∧ s1.unconfirmed = 0 ∧
        s1.gcpoint = 0 ∧ w1.input = w.input ∧ w1.pending = [] ∧
        s1.trace = s.trace ++ [Action.machineReset, Action.serialWrite line,
          Action.serialWrite CRLF, Action.confirmed true]) := by
  obtain ⟨h1, h2, h3, h4, h5, h6, h7⟩ := hs
  have hrec : recovering line s.trace 0 s := by
    refine ⟨by simpa using h1, by simpa using h2, h3, h4, h5, h6, h7, hg, ?_, by simp⟩
    rw [← hg]; exact hb
  have hline : line ≠ CRLF := by
    intro h
    have := hfree 13 (by rw [h]; simp [CRLF])
    exact this.1 rfl
  have h := recovery_phase dev line s.trace w.input w.received 0 s w (by omega) hrec
    (by simpa using hp) (by simp) hdev hline rfl
  intro sched
  obtain ⟨n, ⟨s1, w1, e, hr, hi, hpend⟩, hinv⟩ := h sched
  refine ⟨n, ⟨s1, w1, e, hr.1, hr.1.2.2.1, hr.2.1, hi, hpend, ?_⟩, ?_⟩
  · rw [hr.2.2]
    simp [resendTrace]
  · intro m hm
    obtain ⟨s2, w2, e2, u2, i2, t2⟩ := hinv m hm
    exact ⟨s2, w2, e2, u2, i2, by simpa [resendTrace] using t2⟩



set_option maxRecDepth 100000 in
/-- The theorem `reset_recovery` applied to scenario B after `"G1 X10\n"` has
been read and transmitted; and the whole scenario with the reply arriving in
chunks of three bytes: the device is written `"G1 X10"`, `"\r\n"`, `"G1 X10"`,
`"\r\n"`, `"G1 X20"`, `"\r\n"`, and the loop ends with `exit(EXIT_SUCCESS)`. -/
theorem reset_recovery_witness :
    awaiting 0 afterFirstLine ∧
    (∀ b ∈ bytes "G1 X10", b ≠ 13 ∧ b ≠ 10) ∧
    afterFirstLine.gcpoint = (bytes "G1 X10").length ∧
    afterFirstLine.gcodebuf.take afterFirstLine.gcpoint = bytes "G1 X10" ∧
    afterFirstLineWorld.pending = resetReply ∧
    resetDevice afterFirstLineWorld.received = [] ∧
    untilReached lockstep resetDevice
      (fun sys => ∃ s1 w1, sys = Sys.running s1 w1 ∧ s1.unconfirmed = 1 ∧
        w1.input = afterFirstLineWorld.input ∧
        (s1.trace = afterFirstLine.trace ∨ s1.trace = afterFirstLine.trace ++
          [Action.machineReset, Action.serialWrite (bytes "G1 X10"), Action.serialWrite CRLF]))
      (Sys.running afterFirstLine afterFirstLineWorld)
      (fun sys => ∃ s1 w1, sys = Sys.running s1 w1 ∧ accumulating s1 ∧ s1.unconfirmed = 0 ∧
        s1.gcpoint = 0 ∧ w1.input = afterFirstLineWorld.input ∧ w1.pending = [] ∧
        s1.trace = afterFirstLine.trace ++ [Action.machineReset,
          Action.serialWrite (bytes "G1 X10"), Action.serialWrite CRLF,
          Action.confirmed true]) ∧
    (match closedRun lockstep resetDevice (fun _ => 3) 30
        (Sys.running init (startWorld (inputOf scenarioLines))) with
      | Sys.stopped (Result.exit c sf) => (c, writesOf sf.trace)
      | _ => (EXIT_FAILURE, []))
      = (EXIT_SUCCESS, [bytes "G1 X10", CRLF, bytes "G1 X10", CRLF, bytes "G1 X20", CRLF]) :=
  ⟨⟨rfl, rfl, rfl, rfl, rfl, rfl, rfl⟩, by decide, by decide, by decide, rfl, rfl,
    reset_recovery resetDevice (bytes "G1 X10") afterFirstLine afterFirstLineWorld
      ⟨rfl, rfl, rfl, rfl, rfl, rfl, rfl⟩ (by decide) (by decide) (by decide) rfl rfl,
    by decide⟩

end Gcdump
